import Mathlib

/-!
Shallow embedding of the ai-gateway request orchestration core
(`internal/api/handlers.go`, `internal/usage` store, `providers.Registry`)
and proofs of the specification claims about it.

Modelling conventions:
* Go `int` is `Int`. Go `float64` arithmetic is modelled exactly: a value
  is carried as an explicit integer fraction (`Frac`), and every constant
  and every arithmetic step is rounded to a 53-bit significand, nearest,
  ties to even (`fl64F`) — the IEEE-754 binary64 rounding that Go performs.
  Inputs reachable from 64-bit token counts stay far inside the normal
  range, so subnormals and overflow never arise and are not modelled.
  `math.Round` is rounding half away from zero on the exact value of its
  binary64 argument; its integer result is exactly representable for every
  value the cost pipeline can produce.
* Wall-clock time is not modelled: every `latency_ms` in the model is `0`.
* The provider registry, the router table, the rate limiter verdict and the
  outcome of each provider `Chat` call are environment inputs (the registry
  is a membership predicate, the `n`-th `Chat` call takes its outcome from
  `Env.chat n`, the stream `select` loop consumes a list of channel events).
* The sequential body of `HandleChat` / `handleStream` is turned into a
  trace of journal/response events; the order of the trace list is the
  program order (the happens-before order inside one request).
-/

namespace AIGW

/-- Target of one route entry: `config.Target`. -/
structure Target where
  provider : String
  model : String
deriving DecidableEq, Repr

/-- Route configuration entity: `config.Route` (the `match` predicate is
consumed by the router, which the handler sees only through `Env.route`). -/
structure Route where
  name : String
  primary : Target
  fallbacks : List Target
  timeoutMS : Nat
  retries : Nat
deriving DecidableEq, Repr

/-- Chat message: `providers.Message`. -/
structure Message where
  role : String
  content : String
deriving DecidableEq, Repr

/-- Usage triple of a provider response: `providers.Usage`. -/
structure Usage where
  promptTokens : Int
  completionTokens : Int
  totalTokens : Int
deriving DecidableEq, Repr

/-- Canonical chat response as the handler consumes it: the handler reads
`resp.Usage` and re-encodes the rest verbatim, so only the identifying
fields and the usage block are modelled (`providers.ChatResponse`). -/
structure ChatResponse where
  id : String
  model : String
  usage : Usage
deriving DecidableEq, Repr

/-- One choice entry of a streamed chunk (`providers.ChatChunk.Choices`);
the handler reads `Choices[0].Delta.Content`. -/
structure ChunkChoice where
  deltaContent : String
  finishReason : String
deriving DecidableEq, Repr

/-- One streamed chunk: `providers.ChatChunk`. -/
structure ChatChunk where
  choices : List ChunkChoice
deriving DecidableEq, Repr

/-- Outcome of one `provider.Chat` call: either a response with `err = nil`,
or a non-nil error classified by `router.IsRetryable`. -/
inductive ChatOutcome where
  | ok (resp : ChatResponse)
  | fail (retryable : Bool) (msg : String)
deriving DecidableEq, Repr

/-- One event observed by the `select` loop of `handleStream`: a value on the
chunk channel, the chunk channel closing, a value on the error channel
(`none` is the zero value delivered by a closed error channel, for which
the `if err != nil` guard does nothing), or context cancellation. -/
inductive StreamEv where
  | chunk (c : ChatChunk)
  | chunkClosed
  | errVal (e : Option String)
  | ctxDone
deriving DecidableEq, Repr

/-- Canonical inbound body `api.ChatRequest`. The two `metadata` reads the
handler performs are modelled by their results: `metaTenant` and
`metaUseCase` are the values of the checked type assertions
`req.Metadata["tenant"].(string)` / `req.Metadata["use_case"].(string)`,
which yield `""` when the key is absent or not a string. -/
structure GoChatRequest where
  model : String
  messages : List Message
  temperature : ℚ
  maxTokens : Int
  stream : Bool
  metaTenant : String
  metaUseCase : String
deriving DecidableEq, Repr

/-- Usage journal record: `usage.Record`. -/
structure Record where
  requestID : String
  tenant : String
  useCase : String
  routeName : String
  provider : String
  model : String
  promptTokens : Int
  completionTokens : Int
  totalTokens : Int
  costEstimate : ℚ
  latencyMS : Int
  statusCode : Int
  errorMessage : String
deriving DecidableEq, Repr

/-- Usage journal attempt: `usage.Attempt`. -/
structure Attempt where
  requestID : String
  attemptNo : Nat
  provider : String
  model : String
  latencyMS : Int
  statusCode : Int
  errorMessage : String
deriving DecidableEq, Repr

/-- Go's `math.Round` on the exact value: round to the nearest integer,
ties away from zero. -/
def goRound (q : ℚ) : ℤ :=
  if q < 0 then -(Int.floor (-q + 1/2)) else Int.floor (q + 1/2)

/-- Unreduced integer fraction `numerator × denominator`: the exact value
of one `float64` quantity. All constructors below keep the denominator
positive (a power of two after each rounding). -/
abbrev Frac := ℤ × ℤ

/-- Exact rational value of a fraction. -/
def ratOfFrac (x : Frac) : ℚ := (x.1 : ℚ) / (x.2 : ℚ)

/-- Fuel-driven binary logarithm: `⌊log₂ n⌋` for `n > 0`. The fuel bounds
the recursion structurally; `4096` covers every number below `2 ^ 4096`,
far beyond any numerator or denominator the cost pipeline can produce from
64-bit token counts. -/
def log2fuel : Nat → Nat → Nat
  | 0, _ => 0
  | fuel + 1, n => if n < 2 then 0 else log2fuel fuel (n / 2) + 1

/-- `⌊log₂ n⌋` for `n > 0` (and `0` at `0`). -/
def natLog2 (n : Nat) : Nat := log2fuel 4096 n

/-- `2 ^ max k 0` as a natural number (negative exponents give `2 ^ 0`). -/
def pow2pos (k : ℤ) : Nat := 2 ^ k.toNat

/-- Whether `na / da < 2 ^ k`, by cross-multiplying with the positive and
negative parts of the exponent. -/
def ltPow2 (na da : Nat) (k : ℤ) : Bool :=
  decide (na * pow2pos (-k) < da * pow2pos k)

/-- Round `na / da` (denominator positive) to the nearest integer, ties to
the even neighbour — the IEEE-754 default rounding direction. -/
def rneNat (na da : Nat) : Nat :=
  let q := na / da
  let r := na % da
  if 2 * r < da then q
  else if da < 2 * r then q + 1
  else if q % 2 = 0 then q else q + 1

/-- Round the exact value of a fraction to IEEE-754 binary64: the nearest
number of the form `±m · 2^e` with a 53-bit significand `2^52 ≤ m < 2^53`,
ties to even. The exponent is found from the bit lengths of numerator and
denominator with a one-step correction; subnormals and overflow are outside
the range reachable by the cost pipeline and are not modelled. -/
def fl64F (x : Frac) : Frac :=
  let na := x.1.natAbs
  let da := x.2.natAbs
  if na = 0 ∨ da = 0 then (0, 1)
  else
    let s : ℤ := if (0 ≤ x.1 ↔ 0 ≤ x.2) then 1 else -1
    let k0 : ℤ := (natLog2 na : ℤ) - (natLog2 da : ℤ)
    let k : ℤ := if ltPow2 na da k0 then k0 - 1 else k0
    let e : ℤ := k - 52
    let m : ℤ := (rneNat (na * pow2pos (-e)) (da * pow2pos e) : ℤ)
    if 0 ≤ e then (s * m * ((2 ^ e.toNat : ℕ) : ℤ), 1)
    else (s * m, ((2 ^ (-e).toNat : ℕ) : ℤ))

/-- One `float64` multiplication: the exact product rounded to binary64. -/
def fmulF (x y : Frac) : Frac := fl64F (x.1 * y.1, x.2 * y.2)

/-- One `float64` division: the exact quotient rounded to binary64. -/
def fdivF (x y : Frac) : Frac := fl64F (x.1 * y.2, x.2 * y.1)

/-- One `float64` addition: the exact sum rounded to binary64. -/
def faddF (x y : Frac) : Frac := fl64F (x.1 * y.2 + y.1 * x.2, x.2 * y.2)

/-- Go `math.Round` on the exact value of a binary64 argument: round to the
nearest integer, ties away from zero. For every value the cost pipeline can
produce the integer result is again exactly representable in binary64, so
no further rounding step is needed. -/
def goRoundF (x : Frac) : ℤ :=
  let na := x.1.natAbs
  let da := x.2.natAbs
  let m : ℤ := if 2 * (na % da) < da then (na / da : ℕ) else (na / da : ℕ) + 1
  if (0 ≤ x.1 ↔ 0 ≤ x.2) then m else -m

/-- Binary64 value of the decimal literal `num / den` — what a Go `float64`
constant such as `0.15` denotes at run time. -/
def lit64 (num den : ℤ) : Frac := fl64F (num, den)

/-- Frac-valued core of `usage.EstimateCost`, translated clause by clause
from the Go `switch` (rates are USD per 1M tokens; unknown models take the
`default` branch; each rate literal is its binary64 value). The cost line
mirrors `(float64(p) / 1000000.0 * inputRate) + (float64(c) / 1000000.0 *
outputRate)` with one binary64 rounding per conversion and per operation,
in Go's evaluation order, and the return line mirrors
`math.Round(cost*1000000) / 1000000`. -/
def EstimateCostF (model : String) (promptTokens completionTokens : ℤ) : Frac :=
  let rates : Frac × Frac :=
    if model = "gpt-4o-mini" then (lit64 15 100, lit64 60 100)
    else if model = "gpt-4.1-mini" then (lit64 30 100, lit64 120 100)
    else if model = "claude-3-5-sonnet" then (lit64 300 100, lit64 1500 100)
    else (lit64 15 100, lit64 60 100)
  let cost : Frac :=
    faddF (fmulF (fdivF (fl64F (promptTokens, 1)) (1000000, 1)) rates.1)
      (fmulF (fdivF (fl64F (completionTokens, 1)) (1000000, 1)) rates.2)
  fdivF (goRoundF (fmulF cost (1000000, 1)), 1) (1000000, 1)

/-- Cost estimator `usage.EstimateCost`: the exact rational value of the
binary64 result. -/
def EstimateCost (model : String) (promptTokens completionTokens : Int) : ℚ :=
  ratOfFrac (EstimateCostF model promptTokens completionTokens)

/-- Token approximator `usage.ApproximateTokens`: `len(text) / 4` over the
UTF-8 byte length (Go `len` of a string counts bytes). -/
def ApproximateTokens (text : String) : Int :=
  (text.utf8ByteSize : Int) / 4

/-- Go `fmt.Sprintf("%v", msgs)` for a `[]providers.Message` value: each
struct prints as `\x7brole content\x7d`, the slice as the space-separated
elements in brackets. -/
def fmtMessage (m : Message) : String :=
  "\x7b" ++ m.role ++ " " ++ m.content ++ "\x7d"

/-- Go `fmt.Sprintf("%v", msgs)` for the whole slice. -/
def fmtMessages (ms : List Message) : String :=
  "[" ++ String.intercalate " " (ms.map fmtMessage) ++ "]"

/-- Persisted `requests` row (the non-surrogate columns written by
`Store.Log`; the surrogate `id` and `created_at` are database-generated
and never read back by the core). -/
structure RequestRow where
  requestId : String
  tenant : String
  useCase : String
  routeName : String
  provider : String
  model : String
  promptTokens : Int
  completionTokens : Int
  totalTokens : Int
  costEstimateUsd : ℚ
  latencyMs : Int
  statusCode : Int
  errorMessage : String
deriving DecidableEq, Repr

/-- Persisted `provider_attempts` row; the surrogate foreign key is resolved
through the unique `request_id`, so the row is keyed here by the natural
`request_id` it joins to. -/
structure AttemptRow where
  requestId : String
  attemptNo : Nat
  provider : String
  model : String
  latencyMs : Int
  statusCode : Int
  errorMessage : String
deriving DecidableEq, Repr

/-- The two journal tables. -/
structure DB where
  requests : List RequestRow
  attempts : List AttemptRow
deriving DecidableEq, Repr

/-- Row written by `Store.Log` for a record: every non-key column comes from
the record, except `cost_estimate_usd`, which `Log` computes itself from the
record's model and token counts (`r.CostEstimate` is ignored). -/
def rowOfRecord (r : Record) : RequestRow :=
  { requestId := r.requestID
    tenant := r.tenant
    useCase := r.useCase
    routeName := r.routeName
    provider := r.provider
    model := r.model
    promptTokens := r.promptTokens
    completionTokens := r.completionTokens
    totalTokens := r.totalTokens
    costEstimateUsd := EstimateCost r.model r.promptTokens r.completionTokens
    latencyMs := r.latencyMS
    statusCode := r.statusCode
    errorMessage := r.errorMessage }

/-- `Store.Log`: `INSERT ... ON CONFLICT (request_id) DO UPDATE` — if a row
with the request id exists it is overwritten in place, otherwise a new row
is appended. -/
def dbLog (db : DB) (r : Record) : DB :=
  if db.requests.any (fun row => row.requestId = r.requestID) then
    { db with requests := db.requests.map fun row =>
        if row.requestId = r.requestID then rowOfRecord r else row }
  else
    { db with requests := db.requests ++ [rowOfRecord r] }

/-- Attempt row produced by `Store.LogAttempt` for correlation id `reqId`. -/
def attemptRowOf (reqId : String) (a : Attempt) : AttemptRow :=
  { requestId := reqId
    attemptNo := a.attemptNo
    provider := a.provider
    model := a.model
    latencyMs := a.latencyMS
    statusCode := a.statusCode
    errorMessage := a.errorMessage }

/-- `Store.LogAttempt`: `INSERT INTO provider_attempts ... SELECT id, ...
FROM requests WHERE request_id = $1 LIMIT 1` — inserts one row when a
matching `requests` row exists, otherwise inserts zero rows. -/
def dbLogAttempt (db : DB) (reqId : String) (a : Attempt) : DB :=
  if db.requests.any (fun row => row.requestId = reqId) then
    { db with attempts := db.attempts ++ [attemptRowOf reqId a] }
  else db

/-- Trace events of one request, in program order. -/
inductive Ev where
  | logReq (r : Record)
  | logAttempt (reqId : String) (a : Attempt)
  | beginAttempt (tIdx : Nat) (t : Target) (attemptNo : Nat)
  | chatCall (tIdx callIdx : Nat) (t : Target) (attemptNo : Nat)
  | respondErr (status : Nat) (msg : String) (requestId : String)
  | respondOK (requestId routeName : String) (t : Target) (resp : ChatResponse)
  | streamTakeover (tIdx : Nat) (t : Target) (attemptNo : Nat)
  | writeChunk (c : ChatChunk)
  | writeStreamError (msg : String)
  | writeDone
deriving DecidableEq, Repr

/-- Replay one trace event against the journal (non-journal events are
client-facing writes and do not touch the database). -/
def dbStep (db : DB) : Ev → DB
  | .logReq r => dbLog db r
  | .logAttempt reqId a => dbLogAttempt db reqId a
  | _ => db

/-- Replay a whole trace against empty tables. -/
def runDB (tr : List Ev) : DB :=
  tr.foldl dbStep ⟨[], []⟩

/-- Result of one iteration of the attempt loop body, tagged with the index
of the target it ran against. -/
inductive IterRes where
  | getFail (providerName : String)
  | chatFail (retryable : Bool) (msg : String)
  | chatOk (resp : ChatResponse)
  | streamed
deriving DecidableEq, Repr

/-- One iteration of the attempt loop (one entry of the spec's `ATTEMPT`
state). -/
structure Iter where
  tIdx : Nat
  res : IterRes
deriving DecidableEq, Repr

/-- Environment of one request: the read-only provider registry (membership
of a name), the router verdict, the outcome of the `n`-th buffered `Chat`
call, and the sequence of channel events the streaming `select` observes. -/
structure Env where
  registry : String → Bool
  route : String → Route
  chat : Nat → ChatOutcome
  streamEvs : List StreamEv

/-- Mutable state threaded through the attempt loop: the request-global
attempt counter, the index of the next `Chat` call, and `lastErr`. -/
structure LoopState where
  attemptNo : Nat
  callIdx : Nat
  lastErr : String
deriving DecidableEq, Repr

/-- Error text of `Registry.Get` for a missing provider
(`fmt.Errorf("provider %s not found", name)`). -/
def provNotFound (name : String) : String :=
  "provider " ++ name ++ " not found"

/-- Final usage record the stream pump journals on clean close: token
counts come from the approximator (prompt from the serialized messages,
completion from the accumulated content). -/
def mkStreamRecord (requestID tenant useCase routeName : String) (t : Target)
    (messages : List Message) (fullContent : String) : Record :=
  { requestID := requestID, tenant := tenant, useCase := useCase
    routeName := routeName, provider := t.provider, model := t.model
    promptTokens := ApproximateTokens (fmtMessages messages)
    completionTokens := ApproximateTokens fullContent
    totalTokens := ApproximateTokens (fmtMessages messages) +
      ApproximateTokens fullContent
    costEstimate := 0, latencyMS := 0, statusCode := 200, errorMessage := "" }

/-- Inner `select` loop of `handleStream`, processing the observed channel
events in order while accumulating `fullContent`. On chunk-channel close it
writes the final usage record (token counts from the approximator) and the
`data: [DONE]` trailer; on a non-nil error value it journals one 502
attempt row and writes one SSE error frame; a nil error value is ignored;
context cancellation just returns. -/
def streamLoop (requestID tenant useCase routeName : String) (t : Target)
    (messages : List Message) (attemptNo : Nat) :
    String → List StreamEv → List Ev
  | _, [] => []
  | fullContent, e :: rest =>
    match e with
    | .chunk c =>
      let fc := match c.choices with
        | [] => fullContent
        | ch :: _ => fullContent ++ ch.deltaContent
      .writeChunk c ::
        streamLoop requestID tenant useCase routeName t messages attemptNo fc rest
    | .chunkClosed =>
      [.logReq (mkStreamRecord requestID tenant useCase routeName t
          messages fullContent),
       .writeDone]
    | .errVal none =>
      streamLoop requestID tenant useCase routeName t messages attemptNo
        fullContent rest
    | .errVal (some msg) =>
      [.logAttempt requestID
        { requestID := requestID, attemptNo := attemptNo
          provider := t.provider, model := t.model, latencyMS := 0
          statusCode := 502, errorMessage := msg },
       .writeStreamError msg]
    | .ctxDone => []

/-- Journal attempt row for a failed buffered attempt
(`getStatusCode(err, resp != nil) = 502`, `getErrorMessage(err) = err.Error()`). -/
def mkFailAttempt (requestID : String) (t : Target) (attemptNo : Nat)
    (msg : String) : Attempt :=
  { requestID := requestID, attemptNo := attemptNo, provider := t.provider
    model := t.model, latencyMS := 0, statusCode := 502, errorMessage := msg }

/-- Journal attempt row for the successful buffered attempt. -/
def mkOkAttempt (requestID : String) (t : Target) (attemptNo : Nat) : Attempt :=
  { requestID := requestID, attemptNo := attemptNo, provider := t.provider
    model := t.model, latencyMS := 0, statusCode := 200, errorMessage := "" }

/-- Final `requests` record written on buffered success. -/
def mkFinalRecord (requestID tenant useCase routeName : String) (t : Target)
    (resp : ChatResponse) : Record :=
  { requestID := requestID, tenant := tenant, useCase := useCase
    routeName := routeName, provider := t.provider, model := t.model
    promptTokens := resp.usage.promptTokens
    completionTokens := resp.usage.completionTokens
    totalTokens := resp.usage.totalTokens
    costEstimate := 0, latencyMS := 0, statusCode := 200, errorMessage := "" }

/-- Per-request context fixed before the attempt loop starts. -/
structure Ctx where
  env : Env
  req : GoChatRequest
  requestID : String
  tenant : String
  useCase : String
  route : Route

/-- Inner retry loop of `HandleChat` for one target, with `budget` remaining
iterations (entered with `route.retries + 1`). Returns the emitted trace,
the loop iterations performed, and `some st'` when the loop advances to the
next target (`none` when the request terminated here). Mirrors lines
107-177 of `handlers.go`: a missing provider sets `lastErr` and breaks to
the next target without journaling or incrementing the counter; a streaming
request is handed to `handleStream` before any `Chat` call; a failed `Chat`
journals a 502 attempt row, bumps the counter and retries the same target
only while the error is retryable and budget remains. -/
def runTarget (c : Ctx) (tIdx : Nat) (t : Target) :
    Nat → LoopState → List Ev × List Iter × Option LoopState
  | 0, st => ([], [], some st)
  | b + 1, st =>
    let ev0 := Ev.beginAttempt tIdx t st.attemptNo
    if c.env.registry t.provider = false then
      ([ev0], [⟨tIdx, .getFail t.provider⟩],
        some { st with lastErr := provNotFound t.provider })
    else if c.req.stream then
      let sEvs := streamLoop c.requestID c.tenant c.useCase c.route.name t
        c.req.messages st.attemptNo "" c.env.streamEvs
      ([ev0, .streamTakeover tIdx t st.attemptNo] ++ sEvs,
        [⟨tIdx, .streamed⟩], none)
    else
      match c.env.chat st.callIdx with
      | .ok resp =>
        ([ev0, .chatCall tIdx st.callIdx t st.attemptNo,
          .logAttempt c.requestID (mkOkAttempt c.requestID t st.attemptNo),
          .logReq (mkFinalRecord c.requestID c.tenant c.useCase c.route.name t resp),
          .respondOK c.requestID c.route.name t resp],
         [⟨tIdx, .chatOk resp⟩], none)
      | .fail retryable msg =>
        let evs := [ev0, Ev.chatCall tIdx st.callIdx t st.attemptNo,
          Ev.logAttempt c.requestID (mkFailAttempt c.requestID t st.attemptNo msg)]
        let st' : LoopState :=
          { attemptNo := st.attemptNo + 1, callIdx := st.callIdx + 1, lastErr := msg }
        if retryable ∧ b ≠ 0 then
          match runTarget c tIdx t b st' with
          | (evs', its', res) => (evs ++ evs', ⟨tIdx, .chatFail retryable msg⟩ :: its', res)
        else
          (evs, [⟨tIdx, .chatFail retryable msg⟩], some st')

/-- Outer loop of `HandleChat` over the remaining targets (numbered from
`i`); when every target is exhausted it answers 502 with the text of the
last error. -/
def runTargets (c : Ctx) : Nat → List Target → LoopState → List Ev × List Iter
  | _, [], st => ([.respondErr 502 st.lastErr c.requestID], [])
  | i, t :: rest, st =>
    match runTarget c i t (c.route.retries + 1) st with
    | (evs, its, none) => (evs, its)
    | (evs, its, some st') =>
      let (evs', its') := runTargets c (i + 1) rest st'
      (evs ++ evs', its ++ its')

/-- Inbound request as the handler sees it: the `x-request-id` header, the
UUID the handler would generate when the header is empty, the decoded body
(`none` when `json.Decode` fails), and the rate-limiter verdict. -/
structure Input where
  headerRequestId : String
  genId : String
  body : Option GoChatRequest
  allowed : Bool

/-- Result of one request: the trace of events in program order, and the
loop iterations performed. -/
structure HResult where
  trace : List Ev
  iters : List Iter
deriving DecidableEq, Repr

/-- Request id resolution of lines 53-56: header value, or the generated
UUID when the header is absent or empty. -/
def resolveRequestId (inp : Input) : String :=
  if inp.headerRequestId = "" then inp.genId else inp.headerRequestId

/-- Skeleton record journaled before the attempt loop (line 94). -/
def mkSkeleton (requestID tenant useCase routeName : String) : Record :=
  { requestID := requestID, tenant := tenant, useCase := useCase
    routeName := routeName, provider := "", model := "", promptTokens := 0
    completionTokens := 0, totalTokens := 0, costEstimate := 0, latencyMS := 0
    statusCode := 0, errorMessage := "" }

/-- Record journaled for a rate-limited request (line 84). -/
def mkRateLimited (requestID tenant useCase : String) : Record :=
  { requestID := requestID, tenant := tenant, useCase := useCase
    routeName := "", provider := "", model := "", promptTokens := 0
    completionTokens := 0, totalTokens := 0, costEstimate := 0, latencyMS := 0
    statusCode := 429, errorMessage := "rate limited" }

/-- Tenant resolution of lines 64-67: `metadata.tenant` if present and
non-empty, else `anonymous`. -/
def tenantOf (req : GoChatRequest) : String :=
  if req.metaTenant = "" then "anonymous" else req.metaTenant

/-- Target order of line 104: primary first, then the fallbacks in order. -/
def targetsOf (route : Route) : List Target :=
  route.primary :: route.fallbacks

/-- Per-request context assembled by the handler before the attempt loop. -/
def mkCtx (inp : Input) (env : Env) (req : GoChatRequest) : Ctx :=
  { env := env, req := req, requestID := resolveRequestId inp
    tenant := tenantOf req, useCase := req.metaUseCase
    route := env.route req.metaUseCase }

/-- The orchestrator `HandleChat`: decode, tenant/use-case resolution,
admission, routing, skeleton journal, then the nested retry/fallback
attempt loop. -/
def handleChat (inp : Input) (env : Env) : HResult :=
  let requestID := resolveRequestId inp
  match inp.body with
  | none => ⟨[.respondErr 400 "invalid request body" requestID], []⟩
  | some req =>
    if inp.allowed = false then
      ⟨[.logReq (mkRateLimited requestID (tenantOf req) req.metaUseCase),
        .respondErr 429 "rate limited" requestID], []⟩
    else
      let c := mkCtx inp env req
      let r := runTargets c 0 (targetsOf c.route) ⟨1, 0, ""⟩
      ⟨.logReq (mkSkeleton requestID (tenantOf req) req.metaUseCase c.route.name)
        :: r.1, r.2⟩

/-- Attempt numbers journaled by a trace, in order. -/
def attemptNosOf (tr : List Ev) : List Nat :=
  tr.filterMap fun e => match e with
    | .logAttempt _ a => some a.attemptNo
    | _ => none

/-- Records passed to `Store.Log` by a trace, in order. -/
def logRecsOf (tr : List Ev) : List Record :=
  tr.filterMap fun e => match e with
    | .logReq r => some r
    | _ => none

/-- Attempts passed to `Store.LogAttempt` by a trace, in order. -/
def attemptsOf (tr : List Ev) : List Attempt :=
  tr.filterMap fun e => match e with
    | .logAttempt _ a => some a
    | _ => none

/-- Whether an event is a `LogAttempt` journal write. -/
def isLogAttemptEv : Ev → Bool
  | .logAttempt _ _ => true
  | _ => false

/-- Whether an event is a buffered `provider.Chat` invocation. -/
def isChatCallEv : Ev → Bool
  | .chatCall _ _ _ _ => true
  | _ => false

/-- Whether an event is the buffered 200 response write. -/
def isRespondOKEv : Ev → Bool
  | .respondOK _ _ _ _ => true
  | _ => false

/-- Whether an event is the `data: [DONE]` trailer. -/
def isWriteDoneEv : Ev → Bool
  | .writeDone => true
  | _ => false

/-- Whether an event is a `Store.Log` write of a 200 (final) record. -/
def isFinal200Ev : Ev → Bool
  | .logReq r => r.statusCode == 200
  | _ => false

/-- Whether an iteration outcome is the unknown-provider failure. -/
def isGetFailRes : IterRes → Bool
  | .getFail _ => true
  | _ => false

/-- Whether an iteration outcome is a failure (no response delivered). -/
def isFailureRes : IterRes → Bool
  | .getFail _ => true
  | .chatFail _ _ => true
  | _ => false

/-- Client-visible error text of a failed iteration. -/
def msgOfIter (it : Iter) : String :=
  match it.res with
  | .getFail p => provNotFound p
  | .chatFail _ m => m
  | _ => ""

/-- Price table as the spec words it: per-model `(input_rate, output_rate)`
pairs per 1M tokens, unknown models falling back to the cheapest tier. -/
def specPriceTable : List (String × ℚ × ℚ) :=
  [("gpt-4o-mini", 0.15, 0.60),
   ("gpt-4.1-mini", 0.30, 1.20),
   ("claude-3-5-sonnet", 3.00, 15.00)]

/-- Spec-side rate lookup with the cheapest-tier default. -/
def specRates (model : String) : ℚ × ℚ :=
  ((specPriceTable.lookup model).getD (0.15, 0.60))

/-- Spec-side rounding: half away from zero to 6 decimal places. -/
def specRound6 (q : ℚ) : ℚ :=
  (goRound (q * 1000000) : ℚ) / 1000000

/-- Cost formula exactly as the spec states it:
`(prompt/1e6)·input_rate + (completion/1e6)·output_rate`, rounded half away
from zero to 6 decimal places. -/
def specCost (model : String) (prompt completion : ℚ) : ℚ :=
  specRound6 (prompt / 1000000 * (specRates model).1
    + completion / 1000000 * (specRates model).2)

/-- Price table as the spec words it, each rate taken at the binary64 value
its decimal constant denotes. -/
def specPriceTableF : List (String × Frac × Frac) :=
  [("gpt-4o-mini", lit64 15 100, lit64 60 100),
   ("gpt-4.1-mini", lit64 30 100, lit64 120 100),
   ("claude-3-5-sonnet", lit64 300 100, lit64 1500 100)]

/-- Spec-side rate lookup with the cheapest-tier default, binary64 rates. -/
def specRatesF (model : String) : Frac × Frac :=
  ((specPriceTableF.lookup model).getD (lit64 15 100, lit64 60 100))

/-- Spec-side rounding of a binary64 scaled cost: half away from zero to 6
decimal places, i.e. `math.Round` on the exact value followed by one
binary64 division by `10^6`. -/
def specRound6F (x : Frac) : ℚ :=
  ratOfFrac (fdivF (goRoundF x, 1) (1000000, 1))

/-- Cost formula as the amended claim states it: the spec's expression
`(prompt/1e6)·input_rate + (completion/1e6)·output_rate` evaluated in
binary64 arithmetic over the price table, scaled by `10^6` and rounded half
away from zero to 6 decimal places. -/
def specCostF (model : String) (prompt completion : ℤ) : ℚ :=
  specRound6F (fmulF
    (faddF (fmulF (fdivF (fl64F (prompt, 1)) (1000000, 1)) (specRatesF model).1)
      (fmulF (fdivF (fl64F (completion, 1)) (1000000, 1)) (specRatesF model).2))
    (1000000, 1))

/-! ## Concrete fixtures used by witnesses and counterexamples -/

/-- Example message list. -/
def msgsW : List Message := [⟨"user", "hello"⟩]

/-- Example buffered request. -/
def reqW : GoChatRequest :=
  { model := "", messages := msgsW, temperature := 0, maxTokens := 0
    stream := false, metaTenant := "acme", metaUseCase := "support" }

/-- Example route: one primary, one fallback, one retry. -/
def routeW : Route :=
  { name := "support", primary := ⟨"openai", "gpt-4o-mini"⟩
    fallbacks := [⟨"anthropic", "claude-3-sonnet"⟩], timeoutMS := 30000
    retries := 1 }

/-- Example environment in which every chat call transport-fails. -/
def envW : Env :=
  { registry := fun p => p == "openai" || p == "anthropic"
    route := fun _ => routeW
    chat := fun _ => .fail true "connection refused"
    streamEvs := [.chunkClosed] }

/-! ## C6: cost estimator -/

set_option maxRecDepth 4000 in
/-- Counterexample to claim C6 as stated: `EstimateCost` evaluates the
pricing formula in binary64 floating point, so the computed scaled cost can
fall on the opposite side of a rounding boundary from the exact value. At
`("gpt-4o-mini", 130, 0)` the exact scaled cost is `19.5`, which rounded
half away from zero gives `0.000020 = 20 / 1000000`; the float64
computation instead yields a scaled cost just below `19.5`, so the code
returns the binary64 value of `0.000019` (`700976274800963 / 2 ^ 65`), not
the claimed exact half-away-from-zero result. -/
theorem C6_counterexample :
    EstimateCost "gpt-4o-mini" 130 0 = 700976274800963 / 2 ^ 65 ∧
    specCost "gpt-4o-mini" 130 0 = 20 / 1000000 ∧
    EstimateCost "gpt-4o-mini" 130 0 ≠ specCost "gpt-4o-mini" 130 0 := by
  have h : EstimateCostF "gpt-4o-mini" 130 0 =
      (5607810198407704, 295147905179352825856) := by decide
  have h1 : EstimateCost "gpt-4o-mini" 130 0 = 700976274800963 / 2 ^ 65 := by
    rw [EstimateCost, h]
    norm_num [ratOfFrac]
  have h2 : specCost "gpt-4o-mini" 130 0 = 20 / 1000000 := by
    norm_num [specCost, specRates, specPriceTable, specRound6, goRound,
      List.lookup]
  refine ⟨h1, h2, ?_⟩
  rw [h1, h2]
  norm_num

set_option maxRecDepth 4000 in
/-- Amended claim C6: `EstimateCost` agrees, for every model id and every
pair of non-negative token counts, with the spec's formula evaluated in the
binary64 floating-point arithmetic the code uses — table lookup with the
cheapest-tier default pair (0.15, 0.60),
`(prompt/1e6)·input_rate + (completion/1e6)·output_rate` computed in
float64, scaled by `10^6` and rounded half away from zero to 6 decimal
places by `math.Round`. Being a total function, it never fails. The
documented instance returns the binary64 value of `0.000014`:
`EstimateCost "gpt-4o-mini" 10 20 = 8264141345021879 / 2 ^ 69`. -/
theorem C6_estimate_cost :
    (∀ (model : String) (p c : ℕ),
      EstimateCost model (p : ℤ) (c : ℤ) = specCostF model (p : ℤ) (c : ℤ)) ∧
    EstimateCost "gpt-4o-mini" 10 20 = 8264141345021879 / 2 ^ 69 := by
  constructor
  · intro model p c
    by_cases h1 : model = "gpt-4o-mini"
    · simp [EstimateCost, EstimateCostF, specCostF, specRound6F, specRatesF,
        specPriceTableF, h1, List.lookup]
    · by_cases h2 : model = "gpt-4.1-mini"
      · simp [EstimateCost, EstimateCostF, specCostF, specRound6F, specRatesF,
          specPriceTableF, h1, h2, List.lookup]
      · by_cases h3 : model = "claude-3-5-sonnet"
        · simp [EstimateCost, EstimateCostF, specCostF, specRound6F, specRatesF,
            specPriceTableF, h1, h2, h3, List.lookup]
        · have e1 : (model == "gpt-4o-mini") = false := by
            simp [h1]
          have e2 : (model == "gpt-4.1-mini") = false := by
            simp [h2]
          have e3 : (model == "claude-3-5-sonnet") = false := by
            simp [h3]
          simp [EstimateCost, EstimateCostF, specCostF, specRound6F, specRatesF,
            specPriceTableF, h1, h2, h3, e1, e2, e3, List.lookup]
  · have h : EstimateCostF "gpt-4o-mini" 10 20 =
        (8264141345021879, 590295810358705651712) := by decide
    rw [EstimateCost, h]
    norm_num [ratOfFrac]

/-! ## C7: rate-limited requests -/

/-- Conclusion of claim C7 for a given input and environment. -/
def C7Statement (inp : Input) (env : Env) (req : GoChatRequest) : Prop :=
  (handleChat inp env).trace =
    [.logReq (mkRateLimited (resolveRequestId inp)
        (if req.metaTenant = "" then "anonymous" else req.metaTenant)
        req.metaUseCase),
     .respondErr 429 "rate limited" (resolveRequestId inp)] ∧
  (runDB (handleChat inp env).trace).requests =
    [rowOfRecord (mkRateLimited (resolveRequestId inp)
        (if req.metaTenant = "" then "anonymous" else req.metaTenant)
        req.metaUseCase)] ∧
  (∀ row ∈ (runDB (handleChat inp env).trace).requests,
    row.statusCode = 429 ∧ row.errorMessage = "rate limited") ∧
  (runDB (handleChat inp env).trace).attempts = [] ∧
  (handleChat inp env).iters = [] ∧
  (∀ e ∈ (handleChat inp env).trace, isChatCallEv e = false)

/-- Claim C7: a request denied by the rate limiter journals exactly one
`requests` row with status 429 and error message `rate limited`, answers
HTTP 429, performs no provider attempt and writes no attempt rows. -/
theorem C7_rate_limited (inp : Input) (env : Env) (req : GoChatRequest)
    (hb : inp.body = some req) (ha : inp.allowed = false) :
    C7Statement inp env req := by
  unfold C7Statement
  simp [handleChat, hb, ha, runDB, dbStep, dbLog, mkRateLimited, rowOfRecord,
    isChatCallEv, tenantOf, List.foldl]

/-- Witness for C7 at a concrete denied request. -/
theorem C7_rate_limited_witness :
    ({ headerRequestId := "r7", genId := "g7", body := some reqW,
       allowed := false : Input }.body = some reqW ∧
     ({ headerRequestId := "r7", genId := "g7", body := some reqW,
        allowed := false : Input }.allowed = false)) ∧
    C7Statement
      { headerRequestId := "r7", genId := "g7", body := some reqW, allowed := false }
      envW reqW :=
  ⟨⟨rfl, rfl⟩, C7_rate_limited _ envW reqW rfl rfl⟩

/-! ## C9: invalid JSON bodies -/

/-- Conclusion of claim C9 for a given input and environment. -/
def C9Statement (inp : Input) (env : Env) : Prop :=
  (handleChat inp env).trace =
    [.respondErr 400 "invalid request body" (resolveRequestId inp)] ∧
  runDB (handleChat inp env).trace = ⟨[], []⟩ ∧
  (handleChat inp env).iters = []

/-- Claim C9: a body that does not decode answers HTTP 400 and performs no
journal write at all — no `requests` row and no attempt row. -/
theorem C9_invalid_body (inp : Input) (env : Env) (hb : inp.body = none) :
    C9Statement inp env := by
  unfold C9Statement
  simp [handleChat, hb, runDB, dbStep, List.foldl]

/-- Witness for C9 at a concrete undecodable body. -/
theorem C9_invalid_body_witness :
    ({ headerRequestId := "r9", genId := "g9", body := none,
       allowed := true : Input }.body = none) ∧
    C9Statement
      { headerRequestId := "r9", genId := "g9", body := none, allowed := true }
      envW :=
  ⟨rfl, C9_invalid_body _ envW rfl⟩

/-! ## C3: `Store.Log` upsert law -/

/-- Appending a fresh row to a table without its key and filtering for the
key yields just that row. -/
theorem append_fresh_filter (l : List RequestRow) (r : Record)
    (hmiss : ∀ row ∈ l, ¬ row.requestId = r.requestID) :
    (l ++ [rowOfRecord r]).filter
      (fun row => row.requestId = r.requestID) = [rowOfRecord r] := by
  rw [List.filter_append]
  have h1 : l.filter (fun row => row.requestId = r.requestID) = [] :=
    List.filter_eq_nil_iff.mpr (by
      intro row hmem
      simpa using hmiss row hmem)
  rw [h1]
  simp [rowOfRecord]

/-- Overwriting the keyed row of a key-unique table and filtering for the
key yields just the new row. -/
theorem overwrite_filter (l : List RequestRow) (r : Record)
    (hnd : (l.map (fun row => row.requestId)).Nodup)
    (hhas : (l.any (fun row => row.requestId = r.requestID)) = true) :
    ((l.map fun row =>
        if row.requestId = r.requestID then rowOfRecord r else row).filter
      (fun row => row.requestId = r.requestID)) = [rowOfRecord r] := by
  induction l with
  | nil => simp at hhas
  | cons hd tl ih =>
    simp only [List.map_cons, List.nodup_cons] at hnd
    by_cases h : hd.requestId = r.requestID
    · have htl : ∀ row ∈ tl, ¬ row.requestId = r.requestID := by
        intro row hmem hk
        exact hnd.1 (h ▸ hk ▸ List.mem_map.mpr ⟨row, hmem, rfl⟩)
      have hmap : (tl.map fun row =>
          if row.requestId = r.requestID then rowOfRecord r else row) = tl := by
        refine List.map_congr_left ?_ |>.trans tl.map_id
        intro row hmem
        simp [htl row hmem]
      have hfil : tl.filter (fun row => row.requestId = r.requestID) = [] :=
        List.filter_eq_nil_iff.mpr (by
          intro row hmem
          simpa using htl row hmem)
      simp only [List.map_cons, if_pos h]
      rw [hmap]
      simp [hfil, rowOfRecord]
    · have hhas' : (tl.any (fun row => row.requestId = r.requestID)) = true := by
        simpa [h] using hhas
      simpa [h] using ih hnd.2 hhas'

/-- `Store.Log` leaves exactly one row for the record's key in a key-unique
table. -/
theorem dbLog_filter (db : DB) (r : Record)
    (hnd : (db.requests.map (fun row => row.requestId)).Nodup) :
    (dbLog db r).requests.filter (fun row => row.requestId = r.requestID) =
      [rowOfRecord r] := by
  unfold dbLog
  by_cases h : (db.requests.any (fun row => row.requestId = r.requestID)) = true
  · simp only [h, if_true]
    exact overwrite_filter db.requests r hnd h
  · have h' : (db.requests.any (fun row => row.requestId = r.requestID)) = false :=
      Bool.eq_false_iff.mpr h
    simp only [h', Bool.false_eq_true, if_false]
    refine append_fresh_filter db.requests r ?_
    intro row hmem hk
    rw [List.any_eq_true] at h
    exact h ⟨row, hmem, by simpa using hk⟩

/-- `Store.Log` preserves key-uniqueness of the `requests` table. -/
theorem dbLog_keys_nodup (db : DB) (r : Record)
    (hnd : (db.requests.map (fun row => row.requestId)).Nodup) :
    ((dbLog db r).requests.map (fun row => row.requestId)).Nodup := by
  unfold dbLog
  by_cases h : (db.requests.any (fun row => row.requestId = r.requestID)) = true
  · simp only [h, if_true]
    have : ((db.requests.map fun row =>
        if row.requestId = r.requestID then rowOfRecord r else row).map
          (fun row => row.requestId)) =
        db.requests.map (fun row => row.requestId) := by
      rw [List.map_map]
      refine List.map_congr_left ?_
      intro row _
      by_cases hk : row.requestId = r.requestID <;> simp [hk, rowOfRecord]
    rw [this]
    exact hnd
  · have h' : (db.requests.any (fun row => row.requestId = r.requestID)) = false :=
      Bool.eq_false_iff.mpr h
    simp only [h', Bool.false_eq_true, if_false, List.map_append]
    rw [List.nodup_append]
    refine ⟨hnd, by simp, ?_⟩
    intro a ha
    simp only [List.map_cons, List.map_nil, List.mem_singleton, rowOfRecord]
    intro hb
    rw [List.any_eq_true] at h
    rw [List.mem_map] at ha
    obtain ⟨row, hmem, hk⟩ := ha
    exact h ⟨row, hmem, by simp [hk, hb]⟩

/-- `Store.Log` never touches the `provider_attempts` table. -/
theorem dbLog_attempts (db : DB) (r : Record) :
    (dbLog db r).attempts = db.attempts := by
  unfold dbLog
  split <;> rfl

/-- Conclusion of claim C3: after `Log r ; Log r'` with equal request ids the
table holds exactly one row for that id, carrying the values of `r'` with
the cost derived from the model and token counts of `r'`; attempt rows are
untouched; and `Log` into a table without the key appends the new row. -/
def C3Statement (db : DB) (r r' : Record) : Prop :=
  (dbLog (dbLog db r) r').requests.filter
      (fun row => row.requestId = r'.requestID) = [rowOfRecord r'] ∧
  (rowOfRecord r').costEstimateUsd
      = EstimateCost r'.model r'.promptTokens r'.completionTokens ∧
  (dbLog (dbLog db r) r').attempts = db.attempts ∧
  ((db.requests.any (fun row => row.requestId = r.requestID)) = false →
    (dbLog db r).requests = db.requests ++ [rowOfRecord r])

/-- Claim C3: `Log` is an upsert keyed by `request_id` — `Log r ; Log r'`
with `r.RequestID = r'.RequestID` leaves exactly one `requests` row for the
id, every non-key column taken from `r'` (cost derived from `r'.Model` and
its token counts), and the first `Log` inserts when no row exists. -/
theorem C3_log_upsert (db : DB) (r r' : Record)
    (_hid : r.requestID = r'.requestID)
    (hnd : (db.requests.map (fun row => row.requestId)).Nodup) :
    C3Statement db r r' := by
  refine ⟨?_, rfl, ?_, ?_⟩
  · exact dbLog_filter (dbLog db r) r' (dbLog_keys_nodup db r hnd)
  · rw [dbLog_attempts, dbLog_attempts]
  · intro hmiss
    unfold dbLog
    simp [hmiss]

/-- Witness for C3 at concrete records sharing a request id. -/
theorem C3_log_upsert_witness :
    (({ requestID := "rid", tenant := "a", useCase := "u", routeName := ""
        provider := "", model := "", promptTokens := 0, completionTokens := 0
        totalTokens := 0, costEstimate := 0, latencyMS := 0, statusCode := 0
        errorMessage := "" : Record }).requestID =
      ({ requestID := "rid", tenant := "b", useCase := "u", routeName := "rt"
         provider := "openai", model := "gpt-4o-mini", promptTokens := 10
         completionTokens := 20, totalTokens := 30, costEstimate := 99
         latencyMS := 5, statusCode := 200, errorMessage := "" : Record }).requestID
      ∧ ((DB.mk [] []).requests.map (fun row => row.requestId)).Nodup) ∧
    C3Statement (DB.mk [] [])
      { requestID := "rid", tenant := "a", useCase := "u", routeName := ""
        provider := "", model := "", promptTokens := 0, completionTokens := 0
        totalTokens := 0, costEstimate := 0, latencyMS := 0, statusCode := 0
        errorMessage := "" }
      { requestID := "rid", tenant := "b", useCase := "u", routeName := "rt"
        provider := "openai", model := "gpt-4o-mini", promptTokens := 10
        completionTokens := 20, totalTokens := 30, costEstimate := 99
        latencyMS := 5, statusCode := 200, errorMessage := "" } :=
  ⟨⟨rfl, by simp⟩, C3_log_upsert _ _ _ rfl (by simp)⟩

/-! ## Attempt-number bookkeeping (towards C4 and C2) -/

/-- `attemptNosOf` distributes over concatenation. -/
theorem attemptNosOf_append (l1 l2 : List Ev) :
    attemptNosOf (l1 ++ l2) = attemptNosOf l1 ++ attemptNosOf l2 := by
  unfold attemptNosOf
  exact List.filterMap_append l1 l2 _

/-- The stream pump journals either no attempt row or exactly one, carrying
the attempt counter it was entered with. -/
theorem streamLoop_attemptNos (rid tn uc rn : String) (t : Target)
    (ms : List Message) (n : Nat) :
    ∀ (evs : List StreamEv) (fc : String),
      attemptNosOf (streamLoop rid tn uc rn t ms n fc evs) = [] ∨
      attemptNosOf (streamLoop rid tn uc rn t ms n fc evs) = [n] := by
  intro evs
  induction evs with
  | nil => intro fc; left; rfl
  | cons e rest ih =>
    intro fc
    match e with
    | .chunk c => simpa [streamLoop, attemptNosOf] using ih _
    | .chunkClosed => left; rfl
    | .errVal none => simpa [streamLoop] using ih fc
    | .errVal (some msg) => right; rfl
    | .ctxDone => left; rfl

/-- Attempt numbers journaled by the inner retry loop form the contiguous
range starting at the entry counter; on advance the counter has moved past
exactly the journaled numbers. -/
theorem runTarget_attemptNos (c : Ctx) (i : Nat) (t : Target) :
    ∀ (b : Nat) (st : LoopState),
      ∃ k, attemptNosOf (runTarget c i t b st).1 = List.range' st.attemptNo k ∧
        ∀ st', (runTarget c i t b st).2.2 = some st' →
          st'.attemptNo = st.attemptNo + k := by
  intro b
  induction b with
  | zero =>
    intro st
    exact ⟨0, by simp [runTarget, attemptNosOf], by
      intro st' h
      simp [runTarget] at h
      simp [← h]⟩
  | succ b ih =>
    intro st
    by_cases hreg : c.env.registry t.provider = false
    · have hrt : runTarget c i t (b + 1) st =
        ([.beginAttempt i t st.attemptNo], [⟨i, .getFail t.provider⟩],
          some { st with lastErr := provNotFound t.provider }) := by
        simp [runTarget, hreg]
      refine ⟨0, ?_, ?_⟩
      · rw [hrt]; rfl
      · intro st' h
        rw [hrt] at h
        simp at h
        simp [← h]
    · by_cases hstr : c.req.stream
      · have hrt : runTarget c i t (b + 1) st =
          ([.beginAttempt i t st.attemptNo, .streamTakeover i t st.attemptNo] ++
            streamLoop c.requestID c.tenant c.useCase c.route.name t
              c.req.messages st.attemptNo "" c.env.streamEvs,
           [⟨i, .streamed⟩], none) := by
          simp [runTarget, hreg, hstr]
        rcases streamLoop_attemptNos c.requestID c.tenant c.useCase
          c.route.name t c.req.messages st.attemptNo c.env.streamEvs "" with h | h
        · refine ⟨0, ?_, ?_⟩
          · rw [hrt]
            show attemptNosOf (_ ++ _) = _
            rw [attemptNosOf_append, h]
            rfl
          · intro st' hadv
            rw [hrt] at hadv
            simp at hadv
        · refine ⟨1, ?_, ?_⟩
          · rw [hrt]
            show attemptNosOf (_ ++ _) = _
            rw [attemptNosOf_append, h]
            rfl
          · intro st' hadv
            rw [hrt] at hadv
            simp at hadv
      · rcases hc : c.env.chat st.callIdx with resp | ⟨retryable, msg⟩
        · have hrt : runTarget c i t (b + 1) st =
            ([.beginAttempt i t st.attemptNo, .chatCall i st.callIdx t st.attemptNo,
              .logAttempt c.requestID (mkOkAttempt c.requestID t st.attemptNo),
              .logReq (mkFinalRecord c.requestID c.tenant c.useCase
                c.route.name t resp),
              .respondOK c.requestID c.route.name t resp],
             [⟨i, .chatOk resp⟩], none) := by
            simp [runTarget, hreg, hstr, hc]
          refine ⟨1, ?_, ?_⟩
          · rw [hrt]; rfl
          · intro st' hadv
            rw [hrt] at hadv
            simp at hadv
        · by_cases hb0 : retryable = true ∧ b ≠ 0
          · rcases hr : runTarget c i t b
              ⟨st.attemptNo + 1, st.callIdx + 1, msg⟩ with ⟨evs2, its2, res2⟩
            have hrt : runTarget c i t (b + 1) st =
              ([.beginAttempt i t st.attemptNo,
                .chatCall i st.callIdx t st.attemptNo,
                .logAttempt c.requestID
                  (mkFailAttempt c.requestID t st.attemptNo msg)] ++ evs2,
               ⟨i, .chatFail retryable msg⟩ :: its2, res2) := by
              simp [runTarget, hreg, hstr, hc, hb0.1, hb0.2, hr]
            rcases ih ⟨st.attemptNo + 1, st.callIdx + 1, msg⟩ with ⟨k, hk, hadv⟩
            rw [hr] at hk hadv
            simp only at hk hadv
            refine ⟨k + 1, ?_, ?_⟩
            · rw [hrt]
              show attemptNosOf (_ ++ _) = _
              rw [attemptNosOf_append, hk]
              show st.attemptNo :: List.range' (st.attemptNo + 1) k = _
              rw [List.range'_succ]
            · intro st' h
              rw [hrt] at h
              simp only at h
              have := hadv st' h
              simp only at this
              omega
          · have hrt : runTarget c i t (b + 1) st =
              ([.beginAttempt i t st.attemptNo,
                .chatCall i st.callIdx t st.attemptNo,
                .logAttempt c.requestID
                  (mkFailAttempt c.requestID t st.attemptNo msg)],
               [⟨i, .chatFail retryable msg⟩],
               some ⟨st.attemptNo + 1, st.callIdx + 1, msg⟩) := by
              simp only [runTarget]
              rw [if_neg hreg]
              rw [if_neg (by simpa using hstr)]
              rw [hc]
              simp only
              rw [if_neg hb0]
            refine ⟨1, ?_, ?_⟩
            · rw [hrt]; rfl
            · intro st' h
              rw [hrt] at h
              simp at h
              simp [← h]

/-- Attempt numbers journaled by the whole fallback cascade form the
contiguous range starting at the entry counter. -/
theorem runTargets_attemptNos (c : Ctx) :
    ∀ (ts : List Target) (i : Nat) (st : LoopState),
      ∃ k, attemptNosOf (runTargets c i ts st).1 = List.range' st.attemptNo k := by
  intro ts
  induction ts with
  | nil => intro i st; exact ⟨0, by simp [runTargets, attemptNosOf]⟩
  | cons t rest ih =>
    intro i st
    rcases hr : runTarget c i t (c.route.retries + 1) st with ⟨evs, its, res⟩
    rcases runTarget_attemptNos c i t (c.route.retries + 1) st with ⟨k1, h1, hadv⟩
    rw [hr] at h1 hadv
    simp only at h1 hadv
    match res with
    | none =>
      exact ⟨k1, by simp [runTargets, hr, h1]⟩
    | some st' =>
      rcases ih (i + 1) st' with ⟨k2, h2⟩
      refine ⟨k1 + k2, ?_⟩
      simp only [runTargets, hr]
      rw [attemptNosOf_append, h1, h2, hadv st' rfl]
      simpa [Nat.add_comm] using List.range'_append_1 st.attemptNo k1 k2

/-- Shape of `handleChat` for a decoded, admitted request: the skeleton
journal write followed by the attempt loop. -/
theorem handleChat_some (inp : Input) (env : Env) (req : GoChatRequest)
    (hb : inp.body = some req) (ha : inp.allowed = true) :
    handleChat inp env =
      ⟨.logReq (mkSkeleton (resolveRequestId inp) (tenantOf req)
          req.metaUseCase (mkCtx inp env req).route.name)
        :: (runTargets (mkCtx inp env req) 0
            (targetsOf (mkCtx inp env req).route) ⟨1, 0, ""⟩).1,
       (runTargets (mkCtx inp env req) 0
          (targetsOf (mkCtx inp env req).route) ⟨1, 0, ""⟩).2⟩ := by
  unfold handleChat
  rw [hb]
  simp [ha]

/-- Claim C4: for every request, the journaled attempt numbers are exactly
the list `[1, 2, ..., k]` for some `k ≥ 0` — the counter starts at 1, is
shared across targets, and every journaled attempt uses the current counter
value, which moves past each journaled attempt. -/
theorem C4_attempt_numbers (inp : Input) (env : Env) :
    ∃ k, attemptNosOf (handleChat inp env).trace = List.range' 1 k := by
  match hb : inp.body with
  | none =>
    refine ⟨0, ?_⟩
    unfold handleChat
    rw [hb]
    rfl
  | some req =>
    by_cases ha : inp.allowed = true
    · rw [handleChat_some inp env req hb ha]
      rcases runTargets_attemptNos (mkCtx inp env req)
        (targetsOf (mkCtx inp env req).route) 0 ⟨1, 0, ""⟩ with ⟨k, hk⟩
      exact ⟨k, by simpa [attemptNosOf] using hk⟩
    · have ha' : inp.allowed = false := by
        cases h : inp.allowed
        · rfl
        · exact absurd h ha
      refine ⟨0, ?_⟩
      unfold handleChat
      rw [hb]
      simp [ha', attemptNosOf]

/-! ## Case equations of the inner retry loop -/

/-- Inner loop with no budget left: advance unchanged (never entered this
way by the orchestrator, which always supplies `retries + 1 ≥ 1`). -/
theorem runTarget_zero (c : Ctx) (i : Nat) (t : Target) (st : LoopState) :
    runTarget c i t 0 st = ([], [], some st) := rfl

/-- Unknown provider: set `lastErr`, break to the next target; no journal
write, no counter movement. -/
theorem runTarget_noreg (c : Ctx) (i : Nat) (t : Target) (b : Nat)
    (st : LoopState) (hreg : c.env.registry t.provider = false) :
    runTarget c i t (b + 1) st =
      ([.beginAttempt i t st.attemptNo], [⟨i, .getFail t.provider⟩],
        some { st with lastErr := provNotFound t.provider }) := by
  simp [runTarget, hreg]

/-- Streaming request with a resolved provider: hand over to the stream
pump and terminate the loop. -/
theorem runTarget_stream (c : Ctx) (i : Nat) (t : Target) (b : Nat)
    (st : LoopState) (hreg : c.env.registry t.provider = true)
    (hstr : c.req.stream = true) :
    runTarget c i t (b + 1) st =
      ([.beginAttempt i t st.attemptNo, .streamTakeover i t st.attemptNo] ++
        streamLoop c.requestID c.tenant c.useCase c.route.name t
          c.req.messages st.attemptNo "" c.env.streamEvs,
       [⟨i, .streamed⟩], none) := by
  simp [runTarget, hreg, hstr]

/-- Successful buffered `Chat`: journal the 200 attempt row and the final
record, respond, terminate. -/
theorem runTarget_ok (c : Ctx) (i : Nat) (t : Target) (b : Nat)
    (st : LoopState) (resp : ChatResponse)
    (hreg : c.env.registry t.provider = true) (hstr : c.req.stream = false)
    (hc : c.env.chat st.callIdx = .ok resp) :
    runTarget c i t (b + 1) st =
      ([.beginAttempt i t st.attemptNo, .chatCall i st.callIdx t st.attemptNo,
        .logAttempt c.requestID (mkOkAttempt c.requestID t st.attemptNo),
        .logReq (mkFinalRecord c.requestID c.tenant c.useCase c.route.name t resp),
        .respondOK c.requestID c.route.name t resp],
       [⟨i, .chatOk resp⟩], none) := by
  simp [runTarget, hreg, hstr, hc]

/-- Failed buffered `Chat` with the loop stopping on this target
(non-retryable error or exhausted budget): journal the 502 attempt row,
bump the counter, advance. -/
theorem runTarget_fail_stop (c : Ctx) (i : Nat) (t : Target) (b : Nat)
    (st : LoopState) (retryable : Bool) (msg : String)
    (hreg : c.env.registry t.provider = true) (hstr : c.req.stream = false)
    (hc : c.env.chat st.callIdx = .fail retryable msg)
    (hstop : ¬(retryable = true ∧ b ≠ 0)) :
    runTarget c i t (b + 1) st =
      ([.beginAttempt i t st.attemptNo, .chatCall i st.callIdx t st.attemptNo,
        .logAttempt c.requestID (mkFailAttempt c.requestID t st.attemptNo msg)],
       [⟨i, .chatFail retryable msg⟩],
       some ⟨st.attemptNo + 1, st.callIdx + 1, msg⟩) := by
  simp [runTarget, hreg, hstr, hc, hstop]

/-- Failed buffered `Chat` with a retryable error and budget remaining:
journal the 502 attempt row, bump the counter, retry the same target. -/
theorem runTarget_fail_go (c : Ctx) (i : Nat) (t : Target) (b : Nat)
    (st : LoopState) (retryable : Bool) (msg : String)
    (hreg : c.env.registry t.provider = true) (hstr : c.req.stream = false)
    (hc : c.env.chat st.callIdx = .fail retryable msg)
    (hgo : retryable = true ∧ b ≠ 0) :
    runTarget c i t (b + 1) st =
      ([.beginAttempt i t st.attemptNo, .chatCall i st.callIdx t st.attemptNo,
        .logAttempt c.requestID (mkFailAttempt c.requestID t st.attemptNo msg)] ++
          (runTarget c i t b ⟨st.attemptNo + 1, st.callIdx + 1, msg⟩).1,
       ⟨i, .chatFail retryable msg⟩ ::
          (runTarget c i t b ⟨st.attemptNo + 1, st.callIdx + 1, msg⟩).2.1,
       (runTarget c i t b ⟨st.attemptNo + 1, st.callIdx + 1, msg⟩).2.2) := by
  rcases hr : runTarget c i t b ⟨st.attemptNo + 1, st.callIdx + 1, msg⟩
    with ⟨evs2, its2, res2⟩
  simp [runTarget, hreg, hstr, hc, hgo.1, hgo.2, hr]

/-! ## Structural facts about the inner retry loop -/

/-- Every iteration of the inner loop runs against the given target index. -/
theorem runTarget_tIdx (c : Ctx) (i : Nat) (t : Target) :
    ∀ (b : Nat) (st : LoopState),
      ∀ it ∈ (runTarget c i t b st).2.1, it.tIdx = i := by
  intro b
  induction b with
  | zero => intro st it h; rw [runTarget_zero] at h; simp at h
  | succ b ih =>
    intro st it h
    cases hreg : c.env.registry t.provider with
    | false =>
      rw [runTarget_noreg c i t b st hreg] at h
      simp at h
      rw [h]
    | true =>
      cases hstr : c.req.stream with
      | true =>
        rw [runTarget_stream c i t b st hreg hstr] at h
        simp at h
        rw [h]
      | false =>
        rcases hc : c.env.chat st.callIdx with resp | ⟨retryable, msg⟩
        · rw [runTarget_ok c i t b st resp hreg hstr hc] at h
          simp at h
          rw [h]
        · by_cases hgo : retryable = true ∧ b ≠ 0
          · rw [runTarget_fail_go c i t b st retryable msg hreg hstr hc hgo] at h
            rcases List.mem_cons.mp h with h | h
            · rw [h]
            · exact ih _ it h
          · rw [runTarget_fail_stop c i t b st retryable msg hreg hstr hc hgo] at h
            simp at h
            rw [h]

/-- The inner loop performs at most `budget` iterations. -/
theorem runTarget_len (c : Ctx) (i : Nat) (t : Target) :
    ∀ (b : Nat) (st : LoopState), (runTarget c i t b st).2.1.length ≤ b := by
  intro b
  induction b with
  | zero => intro st; rw [runTarget_zero]; simp
  | succ b ih =>
    intro st
    cases hreg : c.env.registry t.provider with
    | false => rw [runTarget_noreg c i t b st hreg]; simp
    | true =>
      cases hstr : c.req.stream with
      | true => rw [runTarget_stream c i t b st hreg hstr]; simp
      | false =>
        rcases hc : c.env.chat st.callIdx with resp | ⟨retryable, msg⟩
        · rw [runTarget_ok c i t b st resp hreg hstr hc]; simp
        · by_cases hgo : retryable = true ∧ b ≠ 0
          · rw [runTarget_fail_go c i t b st retryable msg hreg hstr hc hgo]
            simpa using ih _
          · rw [runTarget_fail_stop c i t b st retryable msg hreg hstr hc hgo]
            simp

/-- With at least one unit of budget the inner loop performs at least one
iteration. -/
theorem runTarget_ne (c : Ctx) (i : Nat) (t : Target) (b : Nat)
    (st : LoopState) : (runTarget c i t (b + 1) st).2.1 ≠ [] := by
  cases hreg : c.env.registry t.provider with
  | false => rw [runTarget_noreg c i t b st hreg]; simp
  | true =>
    cases hstr : c.req.stream with
    | true => rw [runTarget_stream c i t b st hreg hstr]; simp
    | false =>
      rcases hc : c.env.chat st.callIdx with resp | ⟨retryable, msg⟩
      · rw [runTarget_ok c i t b st resp hreg hstr hc]; simp
      · by_cases hgo : retryable = true ∧ b ≠ 0
        · rw [runTarget_fail_go c i t b st retryable msg hreg hstr hc hgo]
          simp
        · rw [runTarget_fail_stop c i t b st retryable msg hreg hstr hc hgo]
          simp

/-- When the provider resolves, no iteration fails with the
unknown-provider error. -/
theorem runTarget_no_getFail (c : Ctx) (i : Nat) (t : Target)
    (hreg : c.env.registry t.provider = true) :
    ∀ (b : Nat) (st : LoopState),
      ∀ it ∈ (runTarget c i t b st).2.1, isGetFailRes it.res = false := by
  intro b
  induction b with
  | zero => intro st it h; rw [runTarget_zero] at h; simp at h
  | succ b ih =>
    intro st it h
    cases hstr : c.req.stream with
    | true =>
      rw [runTarget_stream c i t b st hreg hstr] at h
      simp at h
      rw [h]
      rfl
    | false =>
      rcases hc : c.env.chat st.callIdx with resp | ⟨retryable, msg⟩
      · rw [runTarget_ok c i t b st resp hreg hstr hc] at h
        simp at h
        rw [h]
        rfl
      · by_cases hgo : retryable = true ∧ b ≠ 0
        · rw [runTarget_fail_go c i t b st retryable msg hreg hstr hc hgo] at h
          rcases List.mem_cons.mp h with h | h
          · rw [h]; rfl
          · exact ih _ it h
        · rw [runTarget_fail_stop c i t b st retryable msg hreg hstr hc hgo] at h
          simp at h
          rw [h]
          rfl

/-- An unknown-provider iteration is the only iteration the loop performs
against its target. -/
theorem runTarget_getFail_singleton (c : Ctx) (i : Nat) (t : Target)
    (b : Nat) (st : LoopState) (it : Iter) (p : String)
    (hmem : it ∈ (runTarget c i t b st).2.1) (hres : it.res = .getFail p) :
    (runTarget c i t b st).2.1 = [it] := by
  cases hreg : c.env.registry t.provider with
  | false =>
    match b with
    | 0 => rw [runTarget_zero] at hmem; simp at hmem
    | b + 1 =>
      rw [runTarget_noreg c i t b st hreg] at hmem ⊢
      simp at hmem
      rw [hmem]
  | true =>
    have := runTarget_no_getFail c i t hreg b st it hmem
    rw [hres] at this
    simp [isGetFailRes] at this

/-- Every iteration of the inner loop except the last failed with a
retryable `Chat` error (the loop only continues past a retryable failure). -/
theorem runTarget_nonlast (c : Ctx) (i : Nat) (t : Target) :
    ∀ (b : Nat) (st : LoopState) (k : Nat),
      k + 1 < (runTarget c i t b st).2.1.length →
      ∃ it m, (runTarget c i t b st).2.1.get? k = some it ∧
        it.res = .chatFail true m := by
  intro b
  induction b with
  | zero => intro st k h; rw [runTarget_zero] at h; simp at h
  | succ b ih =>
    intro st k h
    cases hreg : c.env.registry t.provider with
    | false => rw [runTarget_noreg c i t b st hreg] at h; simp at h
    | true =>
      cases hstr : c.req.stream with
      | true => rw [runTarget_stream c i t b st hreg hstr] at h; simp at h
      | false =>
        rcases hc : c.env.chat st.callIdx with resp | ⟨retryable, msg⟩
        · rw [runTarget_ok c i t b st resp hreg hstr hc] at h; simp at h
        · by_cases hgo : retryable = true ∧ b ≠ 0
          · rw [runTarget_fail_go c i t b st retryable msg hreg hstr hc hgo] at h ⊢
            match k with
            | 0 => exact ⟨⟨i, .chatFail retryable msg⟩, msg, rfl, by rw [hgo.1]⟩
            | k + 1 =>
              simp only [List.length_cons, Nat.add_lt_add_iff_right] at h
              rcases ih _ k h with ⟨it, m, hget, hm⟩
              exact ⟨it, m, by simpa using hget, hm⟩
          · rw [runTarget_fail_stop c i t b st retryable msg hreg hstr hc hgo] at h
            simp at h

/-- Last element of a cons with a nonempty tail. -/
theorem getLast?_cons_ne {α : Type} (a : α) (l : List α) (h : l ≠ []) :
    (a :: l).getLast? = l.getLast? := by
  cases l with
  | nil => exact absurd rfl h
  | cons b bs => rfl

/-- When the inner loop's final iteration failed retryably, the loop spent
its whole budget on this target (it only gives up retrying when the budget
is gone). -/
theorem runTarget_last_retry_full (c : Ctx) (i : Nat) (t : Target) :
    ∀ (b : Nat) (st : LoopState) (it : Iter) (m : String),
      (runTarget c i t b st).2.1.getLast? = some it →
      it.res = .chatFail true m →
      (runTarget c i t b st).2.1.length = b := by
  intro b
  induction b with
  | zero => intro st it m h _; rw [runTarget_zero] at h; simp at h
  | succ b ih =>
    intro st it m h hres
    cases hreg : c.env.registry t.provider with
    | false =>
      rw [runTarget_noreg c i t b st hreg] at h
      simp at h
      rw [← h] at hres
      simp at hres
    | true =>
      cases hstr : c.req.stream with
      | true =>
        rw [runTarget_stream c i t b st hreg hstr] at h
        simp at h
        rw [← h] at hres
        simp at hres
      | false =>
        rcases hc : c.env.chat st.callIdx with resp | ⟨retryable, msg⟩
        · rw [runTarget_ok c i t b st resp hreg hstr hc] at h
          simp at h
          rw [← h] at hres
          simp at hres
        · by_cases hgo : retryable = true ∧ b ≠ 0
          · rw [runTarget_fail_go c i t b st retryable msg hreg hstr hc hgo] at h ⊢
            obtain ⟨b', rfl⟩ := Nat.exists_eq_succ_of_ne_zero hgo.2
            have hne := runTarget_ne c i t b' ⟨st.attemptNo + 1, st.callIdx + 1, msg⟩
            rw [getLast?_cons_ne _ _ hne] at h
            have := ih ⟨st.attemptNo + 1, st.callIdx + 1, msg⟩ it m h hres
            simp [this]
          · rw [runTarget_fail_stop c i t b st retryable msg hreg hstr hc hgo] at h ⊢
            simp at h
            rw [← h] at hres
            simp at hres
            have hb : b = 0 := by
              by_contra hb
              exact hgo ⟨hres.1, hb⟩
            simp [hb]

/-- When the inner loop advances, its last iteration is a failure and the
carried `lastErr` is that failure's message. -/
theorem runTarget_advance_last (c : Ctx) (i : Nat) (t : Target) :
    ∀ (b : Nat) (st : LoopState) (st' : LoopState), b ≠ 0 →
      (runTarget c i t b st).2.2 = some st' →
      ∃ itL, (runTarget c i t b st).2.1.getLast? = some itL ∧
        st'.lastErr = msgOfIter itL ∧ isFailureRes itL.res = true := by
  intro b
  induction b with
  | zero => intro st st' hb _; exact absurd rfl hb
  | succ b ih =>
    intro st st' _ hadv
    cases hreg : c.env.registry t.provider with
    | false =>
      rw [runTarget_noreg c i t b st hreg] at hadv ⊢
      simp at hadv
      exact ⟨⟨i, .getFail t.provider⟩, rfl, by rw [← hadv]; rfl, rfl⟩
    | true =>
      cases hstr : c.req.stream with
      | true =>
        rw [runTarget_stream c i t b st hreg hstr] at hadv
        simp at hadv
      | false =>
        rcases hc : c.env.chat st.callIdx with resp | ⟨retryable, msg⟩
        · rw [runTarget_ok c i t b st resp hreg hstr hc] at hadv
          simp at hadv
        · by_cases hgo : retryable = true ∧ b ≠ 0
          · rw [runTarget_fail_go c i t b st retryable msg hreg hstr hc hgo]
              at hadv ⊢
            obtain ⟨b', hb'⟩ := Nat.exists_eq_succ_of_ne_zero hgo.2
            rcases ih ⟨st.attemptNo + 1, st.callIdx + 1, msg⟩ st' hgo.2 hadv
              with ⟨itL, hlast, hmsg, hfail⟩
            refine ⟨itL, ?_, hmsg, hfail⟩
            have hne : (runTarget c i t b
                ⟨st.attemptNo + 1, st.callIdx + 1, msg⟩).2.1 ≠ [] := by
              rw [hb']
              exact runTarget_ne c i t b' _
            rw [getLast?_cons_ne _ _ hne]
            exact hlast
          · rw [runTarget_fail_stop c i t b st retryable msg hreg hstr hc hgo]
              at hadv ⊢
            simp at hadv
            exact ⟨⟨i, .chatFail retryable msg⟩, rfl, by rw [← hadv]; rfl, rfl⟩

/-- When the inner loop terminates the request, its last iteration is a
success (a delivered buffered response or a stream takeover). -/
theorem runTarget_terminal_last (c : Ctx) (i : Nat) (t : Target) :
    ∀ (b : Nat) (st : LoopState),
      (runTarget c i t b st).2.2 = none →
      ∃ it, (runTarget c i t b st).2.1.getLast? = some it ∧
        isFailureRes it.res = false := by
  intro b
  induction b with
  | zero => intro st h; rw [runTarget_zero] at h; simp at h
  | succ b ih =>
    intro st h
    cases hreg : c.env.registry t.provider with
    | false =>
      rw [runTarget_noreg c i t b st hreg] at h
      simp at h
    | true =>
      cases hstr : c.req.stream with
      | true =>
        rw [runTarget_stream c i t b st hreg hstr]
        exact ⟨⟨i, .streamed⟩, rfl, rfl⟩
      | false =>
        rcases hc : c.env.chat st.callIdx with resp | ⟨retryable, msg⟩
        · rw [runTarget_ok c i t b st resp hreg hstr hc]
          exact ⟨⟨i, .chatOk resp⟩, rfl, rfl⟩
        · by_cases hgo : retryable = true ∧ b ≠ 0
          · rw [runTarget_fail_go c i t b st retryable msg hreg hstr hc hgo] at h ⊢
            obtain ⟨b', hb'⟩ := Nat.exists_eq_succ_of_ne_zero hgo.2
            rcases ih ⟨st.attemptNo + 1, st.callIdx + 1, msg⟩ h
              with ⟨it, hlast, hfail⟩
            refine ⟨it, ?_, hfail⟩
            have hne : (runTarget c i t b
                ⟨st.attemptNo + 1, st.callIdx + 1, msg⟩).2.1 ≠ [] := by
              rw [hb']
              exact runTarget_ne c i t b' _
            rw [getLast?_cons_ne _ _ hne]
            exact hlast
          · rw [runTarget_fail_stop c i t b st retryable msg hreg hstr hc hgo] at h
            simp at h

/-! ## Case equations and block decomposition of the fallback cascade -/

/-- All targets exhausted: answer 502 with the last error text. -/
theorem runTargets_nil (c : Ctx) (i0 : Nat) (st : LoopState) :
    runTargets c i0 [] st = ([.respondErr 502 st.lastErr c.requestID], []) := rfl

/-- Head target terminated the request. -/
theorem runTargets_cons_term (c : Ctx) (i0 : Nat) (t : Target)
    (rest : List Target) (st : LoopState) (evs : List Ev) (its : List Iter)
    (hr : runTarget c i0 t (c.route.retries + 1) st = (evs, its, none)) :
    runTargets c i0 (t :: rest) st = (evs, its) := by
  simp [runTargets, hr]

/-- Head target advanced: continue with the remaining targets. -/
theorem runTargets_cons_adv (c : Ctx) (i0 : Nat) (t : Target)
    (rest : List Target) (st st' : LoopState) (evs : List Ev) (its : List Iter)
    (hr : runTarget c i0 t (c.route.retries + 1) st = (evs, its, some st')) :
    runTargets c i0 (t :: rest) st =
      (evs ++ (runTargets c (i0 + 1) rest st').1,
       its ++ (runTargets c (i0 + 1) rest st').2) := by
  rcases hrec : runTargets c (i0 + 1) rest st' with ⟨evs2, its2⟩
  simp [runTargets, hr, hrec]

/-- Block decomposition of the fallback cascade: the iterations split into
one contiguous block per consulted target, in target order, where each
block is nonempty, runs wholly against its target, stays within the retry
budget, continues only past retryable failures, exhausts the budget before
giving up on a retryable failure, and collapses to a singleton on an
unknown provider. -/
theorem runTargets_blocks (c : Ctx) :
    ∀ (ts : List Target) (i0 : Nat) (st : LoopState),
      ∃ blocks : List (List Iter),
        (runTargets c i0 ts st).2 = blocks.flatten ∧
        blocks.length ≤ ts.length ∧
        ∀ j block, blocks.get? j = some block →
          block ≠ [] ∧
          (∀ it ∈ block, it.tIdx = i0 + j) ∧
          block.length ≤ c.route.retries + 1 ∧
          (∀ k, k + 1 < block.length →
            ∃ it m, block.get? k = some it ∧ it.res = .chatFail true m) ∧
          (∀ it m, block.getLast? = some it → it.res = .chatFail true m →
            block.length = c.route.retries + 1) ∧
          (∀ it p, it ∈ block → it.res = .getFail p → block = [it]) := by
  intro ts
  induction ts with
  | nil =>
    intro i0 st
    exact ⟨[], by simp [runTargets_nil], by simp, by intro j block h; simp at h⟩
  | cons t rest ih =>
    intro i0 st
    rcases hr : runTarget c i0 t (c.route.retries + 1) st with ⟨evs, its, res⟩
    have hP0 : its ≠ [] := by
      have := runTarget_ne c i0 t c.route.retries st
      rw [hr] at this
      exact this
    have hP1 : ∀ it ∈ its, it.tIdx = i0 := by
      have := runTarget_tIdx c i0 t (c.route.retries + 1) st
      rw [hr] at this
      exact this
    have hP2 : its.length ≤ c.route.retries + 1 := by
      have := runTarget_len c i0 t (c.route.retries + 1) st
      rw [hr] at this
      exact this
    have hP3 : ∀ k, k + 1 < its.length →
        ∃ it m, its.get? k = some it ∧ it.res = .chatFail true m := by
      have := runTarget_nonlast c i0 t (c.route.retries + 1) st
      rw [hr] at this
      exact this
    have hP4 : ∀ it m, its.getLast? = some it → it.res = .chatFail true m →
        its.length = c.route.retries + 1 := by
      have := runTarget_last_retry_full c i0 t (c.route.retries + 1) st
      rw [hr] at this
      exact this
    have hP5 : ∀ it p, it ∈ its → it.res = .getFail p → its = [it] := by
      intro it p hmem hres
      have := runTarget_getFail_singleton c i0 t (c.route.retries + 1) st it p
        (by rw [hr]; exact hmem) hres
      rw [hr] at this
      exact this
    match res with
    | none =>
      refine ⟨[its], ?_, by simp, ?_⟩
      · rw [runTargets_cons_term c i0 t rest st evs its hr]
        simp
      · intro j block hj
        match j with
        | 0 =>
          simp at hj
          subst hj
          exact ⟨hP0, by simpa using hP1, hP2, hP3, hP4, hP5⟩
        | j + 1 => simp at hj
    | some st' =>
      rcases ih (i0 + 1) st' with ⟨blocks', hjoin', hlen', hprops'⟩
      refine ⟨its :: blocks', ?_, ?_, ?_⟩
      · rw [runTargets_cons_adv c i0 t rest st st' evs its hr]
        simp [hjoin']
      · simpa using hlen'
      · intro j block hj
        match j with
        | 0 =>
          simp at hj
          subst hj
          exact ⟨hP0, by simpa using hP1, hP2, hP3, hP4, hP5⟩
        | j + 1 =>
          simp only [List.get?_cons_succ] at hj
          rcases hprops' j block hj with ⟨q0, q1, q2, q3, q4, q5⟩
          refine ⟨q0, ?_, q2, q3, q4, q5⟩
          intro it hmem
          have := q1 it hmem
          omega

/-! ## Generic facts about flattened block lists -/

/-- In a flattened list of blocks each carrying one tag per block position,
the elements of a given tag are at most one block long. -/
theorem flatten_filter_tag_le {α : Type} (f : α → Nat) (B : Nat) :
    ∀ (blocks : List (List α)) (i0 T : Nat),
      (∀ j block, blocks.get? j = some block → ∀ x ∈ block, f x = i0 + j) →
      (∀ block ∈ blocks, block.length ≤ B) →
      (blocks.flatten.filter (fun x => f x == T)).length ≤ B := by
  intro blocks
  induction blocks with
  | nil => intro i0 T _ _; simp
  | cons b bs ih =>
    intro i0 T htag hlen
    rw [List.flatten_cons, List.filter_append, List.length_append]
    have hbtag : ∀ x ∈ b, f x = i0 := by
      intro x hx
      simpa using htag 0 b rfl x hx
    have hbstag : ∀ x ∈ bs.flatten, i0 + 1 ≤ f x := by
      intro x hx
      rcases List.mem_flatten.mp hx with ⟨blk, hblk, hxblk⟩
      rcases List.mem_iff_get?.mp hblk with ⟨j, hj⟩
      have := htag (j + 1) blk (by simpa using hj) x hxblk
      omega
    by_cases hT : T = i0
    · have h2 : bs.flatten.filter (fun x => f x == T) = [] := by
        refine List.filter_eq_nil_iff.mpr ?_
        intro x hx
        have := hbstag x hx
        simp only [beq_iff_eq]
        omega
      have h1 : (b.filter (fun x => f x == T)).length ≤ B :=
        le_trans (List.length_filter_le _ _) (hlen b (by simp))
      rw [h2]
      simp only [List.length_nil]
      omega
    · have h1 : b.filter (fun x => f x == T) = [] := by
        refine List.filter_eq_nil_iff.mpr ?_
        intro x hx
        have := hbtag x hx
        simp only [beq_iff_eq]
        omega
      have h2 := ih (i0 + 1) T
        (by
          intro j blk hj x hx
          have := htag (j + 1) blk (by simpa using hj) x hx
          omega)
        (by
          intro blk hblk
          exact hlen blk (by simp [hblk]))
      rw [h1]
      simp only [List.length_nil]
      omega

/-- In a flattened list of tagged blocks, the elements of the tag of block
`j` are exactly block `j`. -/
theorem flatten_filter_tag_eq {α : Type} (f : α → Nat) :
    ∀ (blocks : List (List α)) (i0 j : Nat) (block : List α),
      (∀ j' blk, blocks.get? j' = some blk → ∀ x ∈ blk, f x = i0 + j') →
      blocks.get? j = some block →
      (blocks.flatten.filter (fun x => f x == i0 + j)).length = block.length := by
  intro blocks
  induction blocks with
  | nil => intro i0 j block _ hj; simp at hj
  | cons b bs ih =>
    intro i0 j block htag hj
    rw [List.flatten_cons, List.filter_append, List.length_append]
    have hbtag : ∀ x ∈ b, f x = i0 := by
      intro x hx
      simpa using htag 0 b rfl x hx
    match j with
    | 0 =>
      simp only [List.get?_cons_zero, Option.some_inj] at hj
      subst hj
      have h1 : b.filter (fun x => f x == i0 + 0) = b := by
        refine List.filter_eq_self.mpr ?_
        intro x hx
        simp [hbtag x hx]
      have h2 : bs.flatten.filter (fun x => f x == i0 + 0) = [] := by
        refine List.filter_eq_nil_iff.mpr ?_
        intro x hx
        rcases List.mem_flatten.mp hx with ⟨blk, hblk, hxblk⟩
        rcases List.mem_iff_get?.mp hblk with ⟨j', hj'⟩
        have := htag (j' + 1) blk (by simpa using hj') x hxblk
        simp only [beq_iff_eq]
        omega
      rw [h1, h2]
      simp
    | j + 1 =>
      simp only [List.get?_cons_succ] at hj
      have h1 : b.filter (fun x => f x == i0 + (j + 1)) = [] := by
        refine List.filter_eq_nil_iff.mpr ?_
        intro x hx
        have := hbtag x hx
        simp only [beq_iff_eq]
        omega
      have h2 := ih (i0 + 1) j block
        (by
          intro j' blk hj' x hx
          have := htag (j' + 1) blk (by simpa using hj') x hx
          omega)
        hj
      have harith : i0 + 1 + j = i0 + (j + 1) := by omega
      rw [harith] at h2
      rw [h1, h2]
      simp

/-- Two adjacent positions of a flattened list of nonempty blocks lie
either inside one block, or at a block boundary: the first is the last
element of a block and the second the head of the following block. -/
theorem flatten_get_adjacent {α : Type} :
    ∀ (blocks : List (List α)), (∀ b ∈ blocks, b ≠ []) →
      ∀ (k : Nat) (x y : α), blocks.flatten.get? k = some x →
        blocks.flatten.get? (k + 1) = some y →
        (∃ j b kk, blocks.get? j = some b ∧ b.get? kk = some x ∧
          b.get? (kk + 1) = some y) ∨
        (∃ j b b', blocks.get? j = some b ∧ blocks.get? (j + 1) = some b' ∧
          b.getLast? = some x ∧ b'.head? = some y) := by
  intro blocks
  induction blocks with
  | nil => intro _ k x y hx _; simp at hx
  | cons b bs ih =>
    intro hne k x y hx hy
    rw [List.flatten_cons] at hx hy
    by_cases h1 : k + 1 < b.length
    · left
      have hk : k < b.length := by omega
      rw [List.get?_append hk] at hx
      rw [List.get?_append h1] at hy
      exact ⟨0, b, k, rfl, hx, hy⟩
    · by_cases h2 : k < b.length
      · have hk1 : b.length ≤ k + 1 := by omega
        rw [List.get?_append h2] at hx
        rw [List.get?_append_right hk1] at hy
        have hkk : k + 1 - b.length = 0 := by omega
        rw [hkk] at hy
        have hx_last : b.getLast? = some x := by
          have hkval : k = b.length - 1 := by omega
          rw [List.getLast?_eq_getElem?, ← List.get?_eq_getElem?, ← hkval]
          exact hx
        cases bs with
        | nil => simp at hy
        | cons b2 bs2 =>
          have hb2 : b2 ≠ [] := hne b2 (by simp)
          right
          refine ⟨0, b, b2, rfl, rfl, hx_last, ?_⟩
          rw [List.flatten_cons] at hy
          cases b2 with
          | nil => exact absurd rfl hb2
          | cons z zs => simpa using hy
      · have hbk : b.length ≤ k := by omega
        rw [List.get?_append_right hbk] at hx
        rw [List.get?_append_right (by omega)] at hy
        have harith : k + 1 - b.length = (k - b.length) + 1 := by omega
        rw [harith] at hy
        rcases ih (fun bb hbb => hne bb (by simp [hbb])) (k - b.length) x y hx hy
          with ⟨j, bb, kk, hj, hxx, hyy⟩ | ⟨j, bb, bb', hj, hj', hxx, hyy⟩
        · exact Or.inl ⟨j + 1, bb, kk, by simpa using hj, hxx, hyy⟩
        · exact Or.inr ⟨j + 1, bb, bb', by simpa using hj, by simpa using hj',
            hxx, hyy⟩

/-! ## Exhaustion and journal-count facts about the cascade -/

/-- When every iteration failed, the cascade's trace ends with the 502
response carrying the message of the last failure (or the inherited
`lastErr` when no iteration ran at all). -/
theorem runTargets_allfail (c : Ctx) :
    ∀ (ts : List Target) (i0 : Nat) (st : LoopState),
      (∀ it ∈ (runTargets c i0 ts st).2, isFailureRes it.res = true) →
      ((runTargets c i0 ts st).2 = [] →
        (runTargets c i0 ts st).1.getLast? =
          some (.respondErr 502 st.lastErr c.requestID)) ∧
      (∀ itL, (runTargets c i0 ts st).2.getLast? = some itL →
        (runTargets c i0 ts st).1.getLast? =
          some (.respondErr 502 (msgOfIter itL) c.requestID)) := by
  intro ts
  induction ts with
  | nil =>
    intro i0 st _
    rw [runTargets_nil]
    exact ⟨fun _ => rfl, fun itL h => by simp at h⟩
  | cons t rest ih =>
    intro i0 st hfail
    rcases hr : runTarget c i0 t (c.route.retries + 1) st with ⟨evs, its, res⟩
    have hne : its ≠ [] := by
      have := runTarget_ne c i0 t c.route.retries st
      rw [hr] at this
      exact this
    match res with
    | none =>
      exfalso
      have hterm := runTarget_terminal_last c i0 t (c.route.retries + 1) st
        (by rw [hr])
      rw [hr] at hterm
      rcases hterm with ⟨it, hlast, hok⟩
      have hmem : it ∈ (runTargets c i0 (t :: rest) st).2 := by
        rw [runTargets_cons_term c i0 t rest st evs its hr]
        exact List.mem_of_getLast?_eq_some hlast
      rw [hfail it hmem] at hok
      simp at hok
    | some st' =>
      have hsplit := runTargets_cons_adv c i0 t rest st st' evs its hr
      have hfail' : ∀ it ∈ (runTargets c (i0 + 1) rest st').2,
          isFailureRes it.res = true := by
        intro it hmem
        refine hfail it ?_
        rw [hsplit]
        exact List.mem_append_right _ hmem
      rcases ih (i0 + 1) st' hfail' with ⟨ih1, ih2⟩
      have hadv := runTarget_advance_last c i0 t (c.route.retries + 1) st st'
        (by omega) (by rw [hr])
      rw [hr] at hadv
      rcases hadv with ⟨itA, hitA, hmsgA, _⟩
      constructor
      · intro hnil
        exfalso
        rw [hsplit] at hnil
        simp only [List.append_eq_nil] at hnil
        exact hne hnil.1
      · intro itL hitL
        rw [hsplit] at hitL ⊢
        simp only
        rcases hrest : (runTargets c (i0 + 1) rest st').2 with _ | ⟨y, ys⟩
        · -- no iterations from the remaining targets
          rw [hrest] at hitL
          rw [List.append_nil] at hitL
          have h502 := ih1 hrest
          rw [List.getLast?_append, h502]
          have : itL = itA := by
            rw [hitA] at hitL
            exact (Option.some_inj.mp hitL).symm
          rw [this, ← hmsgA]
          rfl
        · have hne2 : (runTargets c (i0 + 1) rest st').2 ≠ [] := by
            rw [hrest]
            simp
          rw [List.getLast?_append] at hitL
          rcases h2 : (runTargets c (i0 + 1) rest st').2.getLast? with _ | it2
          · rw [List.getLast?_eq_none_iff] at h2
            exact absurd h2 hne2
          · rw [h2] at hitL
            simp only [Option.or_some, Option.some_inj] at hitL
            have h502 := ih2 it2 h2
            rw [List.getLast?_append, h502, hitL]
            rfl

/-- Each buffered iteration that reached the adapter journals exactly one
attempt row; an unknown-provider iteration journals none. -/
theorem runTarget_logcount (c : Ctx) (i : Nat) (t : Target)
    (hstr : c.req.stream = false) :
    ∀ (b : Nat) (st : LoopState),
      ((runTarget c i t b st).1.filter isLogAttemptEv).length =
      ((runTarget c i t b st).2.1.filter
        (fun it => !isGetFailRes it.res)).length := by
  intro b
  induction b with
  | zero => intro st; rw [runTarget_zero]; rfl
  | succ b ih =>
    intro st
    cases hreg : c.env.registry t.provider with
    | false => rw [runTarget_noreg c i t b st hreg]; rfl
    | true =>
      rcases hc : c.env.chat st.callIdx with resp | ⟨retryable, msg⟩
      · rw [runTarget_ok c i t b st resp hreg hstr hc]; rfl
      · by_cases hgo : retryable = true ∧ b ≠ 0
        · rw [runTarget_fail_go c i t b st retryable msg hreg hstr hc hgo]
          rw [List.filter_append, List.length_append]
          have h1 : ([Ev.beginAttempt i t st.attemptNo,
              Ev.chatCall i st.callIdx t st.attemptNo,
              Ev.logAttempt c.requestID
                (mkFailAttempt c.requestID t st.attemptNo msg)].filter
              isLogAttemptEv).length = 1 := rfl
          rw [h1]
          have h2 : (List.filter (fun it => !isGetFailRes it.res)
              (⟨i, .chatFail retryable msg⟩ ::
                (runTarget c i t b ⟨st.attemptNo + 1, st.callIdx + 1, msg⟩).2.1)).length =
              1 + ((runTarget c i t b
                ⟨st.attemptNo + 1, st.callIdx + 1, msg⟩).2.1.filter
                  (fun it => !isGetFailRes it.res)).length := by
            rw [List.filter_cons]
            simp [isGetFailRes]
            omega
          rw [h2, ih]
        · rw [runTarget_fail_stop c i t b st retryable msg hreg hstr hc hgo]; rfl

/-- Journal-count equality lifted to the whole cascade. -/
theorem runTargets_logcount (c : Ctx) (hstr : c.req.stream = false) :
    ∀ (ts : List Target) (i0 : Nat) (st : LoopState),
      ((runTargets c i0 ts st).1.filter isLogAttemptEv).length =
      ((runTargets c i0 ts st).2.filter
        (fun it => !isGetFailRes it.res)).length := by
  intro ts
  induction ts with
  | nil => intro i0 st; rw [runTargets_nil]; rfl
  | cons t rest ih =>
    intro i0 st
    rcases hr : runTarget c i0 t (c.route.retries + 1) st with ⟨evs, its, res⟩
    have hcount := runTarget_logcount c i0 t hstr (c.route.retries + 1) st
    rw [hr] at hcount
    simp only at hcount
    match res with
    | none =>
      rw [runTargets_cons_term c i0 t rest st evs its hr]
      exact hcount
    | some st' =>
      rw [runTargets_cons_adv c i0 t rest st st' evs its hr]
      simp only [List.filter_append, List.length_append]
      rw [hcount, ih (i0 + 1) st']

/-- The cascade over a nonempty target list performs at least one
iteration. -/
theorem runTargets_ne (c : Ctx) (t : Target) (rest : List Target) (i0 : Nat)
    (st : LoopState) : (runTargets c i0 (t :: rest) st).2 ≠ [] := by
  rcases hr : runTarget c i0 t (c.route.retries + 1) st with ⟨evs, its, res⟩
  have hne : its ≠ [] := by
    have := runTarget_ne c i0 t c.route.retries st
    rw [hr] at this
    exact this
  match res with
  | none =>
    rw [runTargets_cons_term c i0 t rest st evs its hr]
    exact hne
  | some st' =>
    rw [runTargets_cons_adv c i0 t rest st st' evs its hr]
    simp only [ne_eq, List.append_eq_nil]
    intro h
    exact hne h.1

/-! ## C1: the retry/fallback attempt loop -/

/-- Conclusion of claim C1 for a buffered, admitted request. -/
def C1Statement (inp : Input) (env : Env) (req : GoChatRequest) : Prop :=
  let hr := handleChat inp env
  let route := env.route req.metaUseCase
  -- each target is tried at most retries+1 times
  (∀ i, (hr.iters.filter (fun it => it.tIdx == i)).length ≤ route.retries + 1) ∧
  -- the iterations decompose into per-target blocks, in target order:
  -- nonempty, within budget, continuing only past retryable failures, and
  -- giving up on a retryable failure only with the budget exhausted
  (∃ blocks : List (List Iter),
    hr.iters = blocks.flatten ∧
    blocks.length ≤ (targetsOf route).length ∧
    (∀ j block, blocks.get? j = some block →
      block ≠ [] ∧
      (∀ it ∈ block, it.tIdx = j) ∧
      block.length ≤ route.retries + 1 ∧
      (∀ k, k + 1 < block.length →
        ∃ it m, block.get? k = some it ∧ it.res = .chatFail true m) ∧
      (∀ it m, block.getLast? = some it → it.res = .chatFail true m →
        block.length = route.retries + 1))) ∧
  -- a non-retryable failure advances to the next target
  (∀ k it it', hr.iters.get? k = some it → hr.iters.get? (k + 1) = some it' →
    ∀ m, it.res = .chatFail false m → it'.tIdx = it.tIdx + 1) ∧
  -- exhaustion answers 502 with the text of the last error
  ((∀ it ∈ hr.iters, isFailureRes it.res = true) →
    ∃ itL, hr.iters.getLast? = some itL ∧
      hr.trace.getLast? =
        some (.respondErr 502 (msgOfIter itL) (resolveRequestId inp))) ∧
  -- zero fallbacks and zero retries: exactly one attempt
  (route.fallbacks = [] → route.retries = 0 → hr.iters.length = 1)

/-- Claim C1: for every buffered request reaching the attempt loop the
orchestrator tries each target at most `retries + 1` times, primary first
and fallbacks in order; it re-attempts a target only after a retryable
failure and only within the budget, advances past a non-retryable failure,
answers 502 with the last error's text when all targets are exhausted, and
a route with zero fallbacks and zero retries yields exactly one attempt. -/
theorem C1_attempt_loop (inp : Input) (env : Env) (req : GoChatRequest)
    (hb : inp.body = some req) (hs : req.stream = false)
    (ha : inp.allowed = true) : C1Statement inp env req := by
  have hshape := handleChat_some inp env req hb ha
  have hiters : (handleChat inp env).iters =
      (runTargets (mkCtx inp env req) 0
        (targetsOf (mkCtx inp env req).route) ⟨1, 0, ""⟩).2 := by
    rw [hshape]
  have htrace : (handleChat inp env).trace =
      .logReq (mkSkeleton (resolveRequestId inp) (tenantOf req)
        req.metaUseCase (mkCtx inp env req).route.name) ::
      (runTargets (mkCtx inp env req) 0
        (targetsOf (mkCtx inp env req).route) ⟨1, 0, ""⟩).1 := by
    rw [hshape]
  have hroute : (mkCtx inp env req).route = env.route req.metaUseCase := rfl
  rcases runTargets_blocks (mkCtx inp env req)
    (targetsOf (mkCtx inp env req).route) 0 ⟨1, 0, ""⟩
    with ⟨blocks, hflat, hblen, hprops⟩
  have hprops' : ∀ j block, blocks.get? j = some block →
      block ≠ [] ∧ (∀ it ∈ block, it.tIdx = j) ∧
      block.length ≤ (env.route req.metaUseCase).retries + 1 ∧
      (∀ k, k + 1 < block.length →
        ∃ it m, block.get? k = some it ∧ it.res = .chatFail true m) ∧
      (∀ it m, block.getLast? = some it → it.res = .chatFail true m →
        block.length = (env.route req.metaUseCase).retries + 1) := by
    intro j block hj
    rcases hprops j block hj with ⟨q0, q1, q2, q3, q4, _⟩
    exact ⟨q0, fun it hmem => by have := q1 it hmem; omega, q2, q3, q4⟩
  refine ⟨?_, ?_, ?_, ?_, ?_⟩
  · -- per-target bound
    intro i
    rw [hiters, hflat]
    refine flatten_filter_tag_le Iter.tIdx _ blocks 0 i ?_ ?_
    · intro j block hj
      exact (hprops j block hj).2.1
    · intro block hmem
      rcases List.mem_iff_get?.mp hmem with ⟨j, hj⟩
      exact (hprops' j block hj).2.2.1
  · -- block decomposition
    exact ⟨blocks, by rw [hiters, hflat], hblen, hprops'⟩
  · -- non-retryable failure advances to the next target
    intro k it it' hk hk' m hres
    rw [hiters, hflat] at hk hk'
    have hne : ∀ b ∈ blocks, b ≠ [] := by
      intro b hmem
      rcases List.mem_iff_get?.mp hmem with ⟨j, hj⟩
      exact (hprops j b hj).1
    rcases flatten_get_adjacent blocks hne k it it' hk hk'
      with ⟨j, b, kk, hj, hx, hy⟩ | ⟨j, b, b', hj, hj', hx, hy⟩
    · exfalso
      rcases List.get?_eq_some.mp hy with ⟨hlt, _⟩
      rcases (hprops j b hj).2.2.2.1 kk hlt with ⟨itK, m', hitK, hresK⟩
      rw [hx] at hitK
      have : it = itK := Option.some_inj.mp hitK
      rw [← this] at hresK
      rw [hres] at hresK
      simp at hresK
    · have h1 : it.tIdx = j :=
        (hprops' j b hj).2.1 it (List.mem_of_getLast?_eq_some hx)
      have h2 : it'.tIdx = j + 1 :=
        (hprops' (j + 1) b' hj').2.1 it' (List.mem_of_mem_head? hy)
      omega
  · -- exhaustion: 502 with the last error text
    intro hfail
    rw [hiters] at hfail
    rcases runTargets_allfail (mkCtx inp env req)
      (targetsOf (mkCtx inp env req).route) 0 ⟨1, 0, ""⟩ hfail with ⟨_, h2⟩
    have hneI : (runTargets (mkCtx inp env req) 0
        (targetsOf (mkCtx inp env req).route) ⟨1, 0, ""⟩).2 ≠ [] :=
      runTargets_ne (mkCtx inp env req) _ _ 0 ⟨1, 0, ""⟩
    rcases hlast : (runTargets (mkCtx inp env req) 0
        (targetsOf (mkCtx inp env req).route) ⟨1, 0, ""⟩).2.getLast?
      with _ | itL
    · rw [List.getLast?_eq_none_iff] at hlast
      exact absurd hlast hneI
    · have h502 := h2 itL hlast
      refine ⟨itL, by rw [hiters]; exact hlast, ?_⟩
      rw [htrace]
      have hne1 : (runTargets (mkCtx inp env req) 0
          (targetsOf (mkCtx inp env req).route) ⟨1, 0, ""⟩).1 ≠ [] := by
        intro hnil
        rw [hnil] at h502
        simp at h502
      rw [getLast?_cons_ne _ _ hne1]
      exact h502
  · -- zero fallbacks, zero retries: exactly one attempt
    intro hfb hrt
    rw [hiters]
    have hts : targetsOf (mkCtx inp env req).route =
        [(env.route req.metaUseCase).primary] := by
      rw [targetsOf, hroute, hfb]
    rw [hts]
    rcases hr : runTarget (mkCtx inp env req) 0
        (env.route req.metaUseCase).primary
        ((mkCtx inp env req).route.retries + 1) ⟨1, 0, ""⟩ with ⟨evs, its, res⟩
    have hlen1 : its.length = 1 := by
      have hle := runTarget_len (mkCtx inp env req) 0
        (env.route req.metaUseCase).primary
        ((mkCtx inp env req).route.retries + 1) ⟨1, 0, ""⟩
      have hne := runTarget_ne (mkCtx inp env req) 0
        (env.route req.metaUseCase).primary
        (mkCtx inp env req).route.retries ⟨1, 0, ""⟩
      rw [hr] at hle hne
      simp only at hle hne
      rw [hroute, hrt] at hle
      have : 1 ≤ its.length := by
        rcases its with _ | ⟨x, xs⟩
        · exact absurd rfl hne
        · simp
      omega
    match res with
    | none =>
      rw [runTargets_cons_term (mkCtx inp env req) 0 _ [] ⟨1, 0, ""⟩ evs its hr]
      exact hlen1
    | some st' =>
      rw [runTargets_cons_adv (mkCtx inp env req) 0 _ [] ⟨1, 0, ""⟩ st' evs its hr]
      simp only [runTargets_nil, List.append_nil]
      exact hlen1

/-- Witness for C1 at a concrete buffered all-failing request. -/
theorem C1_attempt_loop_witness :
    ({ headerRequestId := "r1", genId := "g1", body := some reqW,
       allowed := true : Input }.body = some reqW ∧
     reqW.stream = false ∧
     ({ headerRequestId := "r1", genId := "g1", body := some reqW,
        allowed := true : Input }.allowed = true)) ∧
    C1Statement
      { headerRequestId := "r1", genId := "g1", body := some reqW, allowed := true }
      envW reqW :=
  ⟨⟨rfl, rfl, rfl⟩, C1_attempt_loop _ envW reqW rfl rfl rfl⟩

/-! ## C5: unknown-provider handling -/

/-- Environment whose registry resolves no provider at all. -/
def envC5 : Env :=
  { registry := fun _ => false
    route := fun _ =>
      { name := "g", primary := ⟨"ghost", "m"⟩, fallbacks := [],
        timeoutMS := 0, retries := 0 }
    chat := fun _ => .fail false "unused"
    streamEvs := [] }

/-- Admitted buffered request used against `envC5`. -/
def inpC5 : Input :=
  { headerRequestId := "r5", genId := "g5", body := some reqW, allowed := true }

/-- Counterexample to claim C5 as stated: with the only target's provider
missing from the registry, the orchestrator performs an unknown-provider
iteration and advances (here: exhausts and answers 502 with the not-found
text), but journals NO attempt row — the trace contains no `LogAttempt`
event at all and the `provider_attempts` table stays empty, while the
claim asserts an attempt row is recorded for that target. -/
theorem C5_counterexample :
    (handleChat inpC5 envC5).iters = [⟨0, .getFail "ghost"⟩] ∧
    (runDB (handleChat inpC5 envC5).trace).attempts = [] ∧
    (∀ e ∈ (handleChat inpC5 envC5).trace, isLogAttemptEv e = false) ∧
    (handleChat inpC5 envC5).trace.getLast? =
      some (.respondErr 502 (provNotFound "ghost") "r5") := by
  refine ⟨rfl, rfl, ?_, rfl⟩
  decide

/-- Conclusion of the amended claim C5 for a buffered, admitted request:
an unknown-provider failure journals NO attempt row (attempt rows
correspond exactly to the iterations that reached the adapter), it is the
only iteration against its target, and the loop advances to the target
with the next index. -/
def C5Statement (inp : Input) (env : Env) (req : GoChatRequest) : Prop :=
  let hr := handleChat inp env
  ((hr.trace.filter isLogAttemptEv).length =
    (hr.iters.filter (fun it => !isGetFailRes it.res)).length) ∧
  (∀ k it, hr.iters.get? k = some it → ∀ p, it.res = .getFail p →
    ((hr.iters.filter (fun it2 => it2.tIdx == it.tIdx)).length = 1 ∧
     (∀ it', hr.iters.get? (k + 1) = some it' → it'.tIdx = it.tIdx + 1)))

/-- Amended claim C5: when the registry has no adapter for the current
target's provider, the orchestrator records no attempt row and does not
bump the attempt counter; it sets the last error and advances directly to
the next target without retrying the same target. -/
theorem C5_unknown_provider (inp : Input) (env : Env) (req : GoChatRequest)
    (hb : inp.body = some req) (hs : req.stream = false)
    (ha : inp.allowed = true) : C5Statement inp env req := by
  have hshape := handleChat_some inp env req hb ha
  have hiters : (handleChat inp env).iters =
      (runTargets (mkCtx inp env req) 0
        (targetsOf (mkCtx inp env req).route) ⟨1, 0, ""⟩).2 := by
    rw [hshape]
  have htrace : (handleChat inp env).trace =
      .logReq (mkSkeleton (resolveRequestId inp) (tenantOf req)
        req.metaUseCase (mkCtx inp env req).route.name) ::
      (runTargets (mkCtx inp env req) 0
        (targetsOf (mkCtx inp env req).route) ⟨1, 0, ""⟩).1 := by
    rw [hshape]
  constructor
  · rw [htrace, hiters]
    rw [List.filter_cons]
    have hlf : isLogAttemptEv (.logReq (mkSkeleton (resolveRequestId inp)
        (tenantOf req) req.metaUseCase (mkCtx inp env req).route.name)) =
        false := rfl
    rw [hlf]
    simp only [Bool.false_eq_true, if_false]
    exact runTargets_logcount (mkCtx inp env req) hs
      (targetsOf (mkCtx inp env req).route) 0 ⟨1, 0, ""⟩
  · intro k it hk p hres
    rcases runTargets_blocks (mkCtx inp env req)
      (targetsOf (mkCtx inp env req).route) 0 ⟨1, 0, ""⟩
      with ⟨blocks, hflat, _, hprops⟩
    rw [hiters, hflat] at hk
    have hmem : it ∈ blocks.flatten := List.get?_mem hk
    rcases List.mem_flatten.mp hmem with ⟨b, hb_mem, hit_b⟩
    rcases List.mem_iff_get?.mp hb_mem with ⟨j, hj⟩
    have hsingle : b = [it] := (hprops j b hj).2.2.2.2.2 it p hit_b hres
    have htag : it.tIdx = 0 + j := (hprops j b hj).2.1 it hit_b
    constructor
    · rw [hiters, hflat]
      have heq := flatten_filter_tag_eq Iter.tIdx blocks 0 j b
        (fun j' blk hj' => (hprops j' blk hj').2.1) hj
      rw [hsingle] at heq
      have hback : (0 : Nat) + j = it.tIdx := htag.symm
      rw [hback] at heq
      simpa using heq
    · intro it' hk'
      rw [hiters, hflat] at hk'
      have hne : ∀ bb ∈ blocks, bb ≠ [] := by
        intro bb hbb
        rcases List.mem_iff_get?.mp hbb with ⟨j', hj'⟩
        exact (hprops j' bb hj').1
      rcases flatten_get_adjacent blocks hne k it it' hk hk'
        with ⟨j2, b2, kk, hj2, hx, hy⟩ | ⟨j2, b2, b2', hj2, hj2', hx, hy⟩
      · exfalso
        have hsingle2 : b2 = [it] :=
          (hprops j2 b2 hj2).2.2.2.2.2 it p (List.get?_mem hx) hres
        rw [hsingle2] at hy
        rcases List.get?_eq_some.mp hy with ⟨hlt, _⟩
        simp at hlt
      · have h1 : it.tIdx = 0 + j2 :=
          (hprops j2 b2 hj2).2.1 it (List.mem_of_getLast?_eq_some hx)
        have h2 : it'.tIdx = 0 + (j2 + 1) :=
          (hprops (j2 + 1) b2' hj2').2.1 it' (List.mem_of_mem_head? hy)
        omega

/-- Witness for the amended C5 at a concrete unknown-provider request. -/
theorem C5_unknown_provider_witness :
    (inpC5.body = some reqW ∧ reqW.stream = false ∧ inpC5.allowed = true) ∧
    C5Statement inpC5 envC5 reqW :=
  ⟨⟨rfl, rfl, rfl⟩, C5_unknown_provider inpC5 envC5 reqW rfl rfl rfl⟩

/-! ## Journal replay machinery (towards C2) -/

/-- The single `requests` row left after replaying a trace over a table that
starts with one row for the request: every `Log` overwrites it in place. -/
def lastLogRow (row : RequestRow) : List Ev → RequestRow
  | [] => row
  | e :: tr =>
    match e with
    | .logReq r => lastLogRow (rowOfRecord r) tr
    | _ => lastLogRow row tr

/-- `lastLogRow` composes over concatenation. -/
theorem lastLogRow_append (l1 l2 : List Ev) :
    ∀ row, lastLogRow row (l1 ++ l2) = lastLogRow (lastLogRow row l1) l2 := by
  induction l1 with
  | nil => intro row; rfl
  | cons e tr ih =>
    intro row
    match e with
    | .logReq r => exact ih (rowOfRecord r)
    | .logAttempt rid a => exact ih row
    | .beginAttempt i t n => exact ih row
    | .chatCall i ci t n => exact ih row
    | .respondErr s m r => exact ih row
    | .respondOK r rn t resp => exact ih row
    | .streamTakeover i t n => exact ih row
    | .writeChunk ch => exact ih row
    | .writeStreamError m => exact ih row
    | .writeDone => exact ih row

/-- The journaled attempt numbers are the attempt numbers of the journaled
attempts. -/
theorem attemptNosOf_eq_map (tr : List Ev) :
    attemptNosOf tr = (attemptsOf tr).map (fun a => a.attemptNo) := by
  induction tr with
  | nil => rfl
  | cons e rest ih =>
    match e with
    | .logReq r => simpa [attemptNosOf, attemptsOf, List.filterMap_cons] using ih
    | .logAttempt rid a =>
      simp only [attemptNosOf, attemptsOf, List.filterMap_cons] at ih ⊢
      simp [ih]
    | .beginAttempt i t n =>
      simpa [attemptNosOf, attemptsOf, List.filterMap_cons] using ih
    | .chatCall i ci t n =>
      simpa [attemptNosOf, attemptsOf, List.filterMap_cons] using ih
    | .respondErr s m r =>
      simpa [attemptNosOf, attemptsOf, List.filterMap_cons] using ih
    | .respondOK r rn t resp =>
      simpa [attemptNosOf, attemptsOf, List.filterMap_cons] using ih
    | .streamTakeover i t n =>
      simpa [attemptNosOf, attemptsOf, List.filterMap_cons] using ih
    | .writeChunk ch =>
      simpa [attemptNosOf, attemptsOf, List.filterMap_cons] using ih
    | .writeStreamError m =>
      simpa [attemptNosOf, attemptsOf, List.filterMap_cons] using ih
    | .writeDone =>
      simpa [attemptNosOf, attemptsOf, List.filterMap_cons] using ih

/-- `attemptsOf` distributes over concatenation. -/
theorem attemptsOf_append (l1 l2 : List Ev) :
    attemptsOf (l1 ++ l2) = attemptsOf l1 ++ attemptsOf l2 := by
  unfold attemptsOf
  exact List.filterMap_append l1 l2 _

/-- Replaying a trace whose journal events all carry the request's id over a
table holding exactly the request's row: the `requests` table ends at the
last `Log`'s row and the attempt rows are appended in order. -/
theorem foldl_dbStep (rid : String) :
    ∀ (tr : List Ev) (db : DB) (row : RequestRow),
      db.requests = [row] → row.requestId = rid →
      (∀ r, Ev.logReq r ∈ tr → r.requestID = rid) →
      (∀ rid2 a, Ev.logAttempt rid2 a ∈ tr → rid2 = rid) →
      (tr.foldl dbStep db).requests = [lastLogRow row tr] ∧
      (tr.foldl dbStep db).attempts =
        db.attempts ++ (attemptsOf tr).map (attemptRowOf rid) := by
  intro tr
  induction tr with
  | nil => intro db row hdb _ _ _; simp [lastLogRow, attemptsOf, hdb]
  | cons e rest ih =>
    intro db row hdb hrow hlog hatt
    match e with
    | .logReq r =>
      have hr : r.requestID = rid := hlog r (by simp)
      have hstep : dbStep db (.logReq r) =
          { requests := [rowOfRecord r], attempts := db.attempts } := by
        show dbLog db r = _
        unfold dbLog
        rw [hdb]
        have hany : ([row].any fun rw2 => rw2.requestId = r.requestID) = true := by
          simp [hrow, hr]
        rw [hany]
        simp [hrow, hr]
      rw [List.foldl_cons, hstep]
      have := ih { requests := [rowOfRecord r], attempts := db.attempts }
        (rowOfRecord r) rfl (by rw [rowOfRecord]; exact hr)
        (fun r2 h2 => hlog r2 (by simp [h2]))
        (fun rid2 a h2 => hatt rid2 a (by simp [h2]))
      refine ⟨this.1, ?_⟩
      rw [this.2]
      have : attemptsOf (Ev.logReq r :: rest) = attemptsOf rest := rfl
      rw [this]
    | .logAttempt rid2 a =>
      have hr2 : rid2 = rid := hatt rid2 a (by simp)
      have hstep : dbStep db (.logAttempt rid2 a) =
          { requests := [row],
            attempts := db.attempts ++ [attemptRowOf rid a] } := by
        show dbLogAttempt db rid2 a = _
        unfold dbLogAttempt
        rw [hdb]
        have hany : ([row].any fun rw2 => rw2.requestId = rid2) = true := by
          simp [hrow, hr2]
        rw [hany]
        simp [hdb, hr2]
      rw [List.foldl_cons, hstep]
      have := ih { requests := [row], attempts := db.attempts ++ [attemptRowOf rid a] }
        row rfl hrow
        (fun r2 h2 => hlog r2 (by simp [h2]))
        (fun rid3 a3 h3 => hatt rid3 a3 (by simp [h3]))
      refine ⟨this.1, ?_⟩
      rw [this.2]
      have hrest : attemptsOf (Ev.logAttempt rid2 a :: rest) =
          a :: attemptsOf rest := rfl
      rw [hrest]
      simp
    | .beginAttempt i t n =>
      exact ih db row hdb hrow (fun r2 h2 => hlog r2 (by simp [h2]))
        (fun rid2 a h2 => hatt rid2 a (by simp [h2]))
    | .chatCall i ci t n =>
      exact ih db row hdb hrow (fun r2 h2 => hlog r2 (by simp [h2]))
        (fun rid2 a h2 => hatt rid2 a (by simp [h2]))
    | .respondErr s m r =>
      exact ih db row hdb hrow (fun r2 h2 => hlog r2 (by simp [h2]))
        (fun rid2 a h2 => hatt rid2 a (by simp [h2]))
    | .respondOK r rn t resp =>
      exact ih db row hdb hrow (fun r2 h2 => hlog r2 (by simp [h2]))
        (fun rid2 a h2 => hatt rid2 a (by simp [h2]))
    | .streamTakeover i t n =>
      exact ih db row hdb hrow (fun r2 h2 => hlog r2 (by simp [h2]))
        (fun rid2 a h2 => hatt rid2 a (by simp [h2]))
    | .writeChunk ch =>
      exact ih db row hdb hrow (fun r2 h2 => hlog r2 (by simp [h2]))
        (fun rid2 a h2 => hatt rid2 a (by simp [h2]))
    | .writeStreamError m =>
      exact ih db row hdb hrow (fun r2 h2 => hlog r2 (by simp [h2]))
        (fun rid2 a h2 => hatt rid2 a (by simp [h2]))
    | .writeDone =>
      exact ih db row hdb hrow (fun r2 h2 => hlog r2 (by simp [h2]))
        (fun rid2 a h2 => hatt rid2 a (by simp [h2]))

/-- Every journal event of the stream pump carries the request's id. -/
theorem streamLoop_sameId (rid tn uc rn : String) (t : Target)
    (ms : List Message) (n : Nat) :
    ∀ (evs : List StreamEv) (fc : String),
      (∀ r, Ev.logReq r ∈ streamLoop rid tn uc rn t ms n fc evs →
        r.requestID = rid) ∧
      (∀ rid2 a, Ev.logAttempt rid2 a ∈ streamLoop rid tn uc rn t ms n fc evs →
        rid2 = rid) := by
  intro evs
  induction evs with
  | nil => intro fc; exact ⟨fun r h => by simp [streamLoop] at h,
      fun rid2 a h => by simp [streamLoop] at h⟩
  | cons e rest ih =>
    intro fc
    match e with
    | .chunk c =>
      refine ⟨fun r h => ?_, fun rid2 a h => ?_⟩
      · rw [streamLoop] at h
        simp only [List.mem_cons] at h
        rcases h with h | h
        · simp at h
        · exact (ih _).1 r h
      · rw [streamLoop] at h
        simp only [List.mem_cons] at h
        rcases h with h | h
        · simp at h
        · exact (ih _).2 rid2 a h
    | .chunkClosed =>
      refine ⟨fun r h => ?_, fun rid2 a h => ?_⟩
      · rw [streamLoop] at h
        simp only [List.mem_cons] at h
        rcases h with h | h
        · rw [Ev.logReq.injEq] at h
          subst h
          rfl
        · simp at h
      · rw [streamLoop] at h
        simp at h
    | .errVal none =>
      exact ⟨fun r h => (ih fc).1 r (by rw [streamLoop] at h; exact h),
        fun rid2 a h => (ih fc).2 rid2 a (by rw [streamLoop] at h; exact h)⟩
    | .errVal (some m) =>
      refine ⟨fun r h => ?_, fun rid2 a h => ?_⟩
      · rw [streamLoop] at h
        simp at h
      · rw [streamLoop] at h
        simp only [List.mem_cons] at h
        rcases h with h | h
        · rw [Ev.logAttempt.injEq] at h
          exact h.1
        · simp at h
    | .ctxDone =>
      exact ⟨fun r h => by rw [streamLoop] at h; simp at h,
        fun rid2 a h => by rw [streamLoop] at h; simp at h⟩

/-- Every journal event of the inner retry loop carries the request's id. -/
theorem runTarget_sameId (c : Ctx) (i : Nat) (t : Target) :
    ∀ (b : Nat) (st : LoopState),
      (∀ r, Ev.logReq r ∈ (runTarget c i t b st).1 →
        r.requestID = c.requestID) ∧
      (∀ rid2 a, Ev.logAttempt rid2 a ∈ (runTarget c i t b st).1 →
        rid2 = c.requestID) := by
  intro b
  induction b with
  | zero =>
    intro st
    rw [runTarget_zero]
    exact ⟨fun r h => by simp at h, fun rid2 a h => by simp at h⟩
  | succ b ih =>
    intro st
    cases hreg : c.env.registry t.provider with
    | false =>
      rw [runTarget_noreg c i t b st hreg]
      exact ⟨fun r h => by simp at h, fun rid2 a h => by simp at h⟩
    | true =>
      cases hstr : c.req.stream with
      | true =>
        rw [runTarget_stream c i t b st hreg hstr]
        have hs := streamLoop_sameId c.requestID c.tenant c.useCase
          c.route.name t c.req.messages st.attemptNo c.env.streamEvs ""
        refine ⟨fun r h => ?_, fun rid2 a h => ?_⟩
        · simp only [List.cons_append, List.nil_append, List.mem_cons] at h
          rcases h with h | h | h
          · simp at h
          · simp at h
          · exact hs.1 r h
        · simp only [List.cons_append, List.nil_append, List.mem_cons] at h
          rcases h with h | h | h
          · simp at h
          · simp at h
          · exact hs.2 rid2 a h
      | false =>
        rcases hc : c.env.chat st.callIdx with resp | ⟨retryable, msg⟩
        · rw [runTarget_ok c i t b st resp hreg hstr hc]
          refine ⟨fun r h => ?_, fun rid2 a h => ?_⟩
          · simp only [List.mem_cons] at h
            rcases h with h | h | h | h | h
            · simp at h
            · simp at h
            · simp at h
            · rw [Ev.logReq.injEq] at h
              subst h
              rfl
            · simp at h
          · simp only [List.mem_cons] at h
            rcases h with h | h | h | h | h
            · simp at h
            · simp at h
            · rw [Ev.logAttempt.injEq] at h
              exact h.1
            · simp at h
            · simp at h
        · by_cases hgo : retryable = true ∧ b ≠ 0
          · rw [runTarget_fail_go c i t b st retryable msg hreg hstr hc hgo]
            refine ⟨fun r h => ?_, fun rid2 a h => ?_⟩
            · simp only [List.cons_append, List.nil_append, List.mem_cons] at h
              rcases h with h | h | h | h
              · simp at h
              · simp at h
              · simp at h
              · exact (ih _).1 r h
            · simp only [List.cons_append, List.nil_append, List.mem_cons] at h
              rcases h with h | h | h | h
              · simp at h
              · simp at h
              · rw [Ev.logAttempt.injEq] at h
                exact h.1
              · exact (ih _).2 rid2 a h
          · rw [runTarget_fail_stop c i t b st retryable msg hreg hstr hc hgo]
            refine ⟨fun r h => ?_, fun rid2 a h => ?_⟩
            · simp only [List.mem_cons] at h
              rcases h with h | h | h | h
              · simp at h
              · simp at h
              · simp at h
              · simp at h
            · simp only [List.mem_cons] at h
              rcases h with h | h | h | h
              · simp at h
              · simp at h
              · rw [Ev.logAttempt.injEq] at h
                exact h.1
              · simp at h

/-- Every journal event of the whole cascade carries the request's id. -/
theorem runTargets_sameId (c : Ctx) :
    ∀ (ts : List Target) (i0 : Nat) (st : LoopState),
      (∀ r, Ev.logReq r ∈ (runTargets c i0 ts st).1 →
        r.requestID = c.requestID) ∧
      (∀ rid2 a, Ev.logAttempt rid2 a ∈ (runTargets c i0 ts st).1 →
        rid2 = c.requestID) := by
  intro ts
  induction ts with
  | nil =>
    intro i0 st
    rw [runTargets_nil]
    exact ⟨fun r h => by simp at h, fun rid2 a h => by simp at h⟩
  | cons t rest ih =>
    intro i0 st
    rcases hr : runTarget c i0 t (c.route.retries + 1) st with ⟨evs, its, res⟩
    have hone := runTarget_sameId c i0 t (c.route.retries + 1) st
    rw [hr] at hone
    simp only at hone
    match res with
    | none =>
      rw [runTargets_cons_term c i0 t rest st evs its hr]
      exact hone
    | some st' =>
      rw [runTargets_cons_adv c i0 t rest st st' evs its hr]
      refine ⟨fun r h => ?_, fun rid2 a h => ?_⟩
      · rcases List.mem_append.mp h with h | h
        · exact hone.1 r h
        · exact (ih (i0 + 1) st').1 r h
      · rcases List.mem_append.mp h with h | h
        · exact hone.2 rid2 a h
        · exact (ih (i0 + 1) st').2 rid2 a h

/-- Journal state after a decoded, admitted request: one `requests` row,
overwritten by each `Log` in program order, and the attempt rows appended
in order. -/
theorem runDB_handleChat (inp : Input) (env : Env) (req : GoChatRequest)
    (hb : inp.body = some req) (ha : inp.allowed = true) :
    (runDB (handleChat inp env).trace).requests =
      [lastLogRow
        (rowOfRecord (mkSkeleton (resolveRequestId inp) (tenantOf req)
          req.metaUseCase (mkCtx inp env req).route.name))
        (runTargets (mkCtx inp env req) 0
          (targetsOf (mkCtx inp env req).route) ⟨1, 0, ""⟩).1] ∧
    (runDB (handleChat inp env).trace).attempts =
      (attemptsOf (runTargets (mkCtx inp env req) 0
        (targetsOf (mkCtx inp env req).route) ⟨1, 0, ""⟩).1).map
        (attemptRowOf (resolveRequestId inp)) := by
  have hshape := handleChat_some inp env req hb ha
  have htrace : (handleChat inp env).trace =
      .logReq (mkSkeleton (resolveRequestId inp) (tenantOf req)
        req.metaUseCase (mkCtx inp env req).route.name) ::
      (runTargets (mkCtx inp env req) 0
        (targetsOf (mkCtx inp env req).route) ⟨1, 0, ""⟩).1 := by
    rw [hshape]
  rw [htrace]
  unfold runDB
  rw [List.foldl_cons]
  have hstep : dbStep ⟨[], []⟩
      (.logReq (mkSkeleton (resolveRequestId inp) (tenantOf req)
        req.metaUseCase (mkCtx inp env req).route.name)) =
      { requests := [rowOfRecord (mkSkeleton (resolveRequestId inp)
          (tenantOf req) req.metaUseCase (mkCtx inp env req).route.name)],
        attempts := [] } := by
    show dbLog ⟨[], []⟩ _ = _
    unfold dbLog
    simp
  rw [hstep]
  have hsame := runTargets_sameId (mkCtx inp env req)
    (targetsOf (mkCtx inp env req).route) 0 ⟨1, 0, ""⟩
  have := foldl_dbStep (resolveRequestId inp)
    (runTargets (mkCtx inp env req) 0
      (targetsOf (mkCtx inp env req).route) ⟨1, 0, ""⟩).1
    { requests := [rowOfRecord (mkSkeleton (resolveRequestId inp)
        (tenantOf req) req.metaUseCase (mkCtx inp env req).route.name)],
      attempts := [] }
    (rowOfRecord (mkSkeleton (resolveRequestId inp) (tenantOf req)
      req.metaUseCase (mkCtx inp env req).route.name))
    rfl rfl hsame.1 hsame.2
  exact ⟨this.1, by rw [this.2]; simp⟩

/-- A delivered buffered 200 response pins down the inner loop's journal:
the loop terminated, the last `Log` wrote the final record for the winning
target, and the last attempt row is the 200 attempt. -/
theorem runTarget_respondOK (c : Ctx) (i : Nat) (t : Target)
    (hstr : c.req.stream = false) :
    ∀ (b : Nat) (st : LoopState) (rid rn : String) (t' : Target)
      (resp : ChatResponse),
      Ev.respondOK rid rn t' resp ∈ (runTarget c i t b st).1 →
      rid = c.requestID ∧ rn = c.route.name ∧ t' = t ∧
      (runTarget c i t b st).2.2 = none ∧
      (∀ row, lastLogRow row (runTarget c i t b st).1 =
        rowOfRecord (mkFinalRecord c.requestID c.tenant c.useCase
          c.route.name t resp)) ∧
      ∃ n, (attemptsOf (runTarget c i t b st).1).getLast? =
        some (mkOkAttempt c.requestID t n) := by
  intro b
  induction b with
  | zero =>
    intro st rid rn t' resp h
    rw [runTarget_zero] at h
    simp at h
  | succ b ih =>
    intro st rid rn t' resp h
    cases hreg : c.env.registry t.provider with
    | false =>
      rw [runTarget_noreg c i t b st hreg] at h
      simp at h
    | true =>
      rcases hc : c.env.chat st.callIdx with resp0 | ⟨retryable, msg⟩
      · rw [runTarget_ok c i t b st resp0 hreg hstr hc] at h ⊢
        simp only [List.mem_cons, List.not_mem_nil, or_false] at h
        rcases h with h | h | h | h | h
        · simp at h
        · simp at h
        · simp at h
        · simp at h
        · rw [Ev.respondOK.injEq] at h
          obtain ⟨h1, h2, h3, h4⟩ := h
          subst h1
          subst h2
          subst h3
          subst h4
          exact ⟨rfl, rfl, rfl, rfl, fun row => rfl, st.attemptNo, rfl⟩
      · by_cases hgo : retryable = true ∧ b ≠ 0
        · rw [runTarget_fail_go c i t b st retryable msg hreg hstr hc hgo] at h ⊢
          simp only [List.cons_append, List.nil_append, List.mem_cons] at h
          rcases h with h | h | h | h
          · simp at h
          · simp at h
          · simp at h
          · rcases ih ⟨st.attemptNo + 1, st.callIdx + 1, msg⟩ rid rn t' resp h
              with ⟨h1, h2, h3, h4, h5, n, h6⟩
            refine ⟨h1, h2, h3, h4, ?_, n, ?_⟩
            · intro row
              rw [lastLogRow_append]
              exact h5 _
            · rw [attemptsOf_append, List.getLast?_append, h6]
              rfl
        · rw [runTarget_fail_stop c i t b st retryable msg hreg hstr hc hgo] at h
          simp at h

/-- A delivered buffered 200 response pins down the cascade's journal. -/
theorem runTargets_respondOK (c : Ctx) (hstr : c.req.stream = false) :
    ∀ (ts : List Target) (i0 : Nat) (st : LoopState) (rid rn : String)
      (t' : Target) (resp : ChatResponse),
      Ev.respondOK rid rn t' resp ∈ (runTargets c i0 ts st).1 →
      rid = c.requestID ∧ rn = c.route.name ∧
      (∀ row, lastLogRow row (runTargets c i0 ts st).1 =
        rowOfRecord (mkFinalRecord c.requestID c.tenant c.useCase
          c.route.name t' resp)) ∧
      ∃ n, (attemptsOf (runTargets c i0 ts st).1).getLast? =
        some (mkOkAttempt c.requestID t' n) := by
  intro ts
  induction ts with
  | nil =>
    intro i0 st rid rn t' resp h
    rw [runTargets_nil] at h
    simp at h
  | cons t rest ih =>
    intro i0 st rid rn t' resp h
    rcases hr : runTarget c i0 t (c.route.retries + 1) st with ⟨evs, its, res⟩
    match res with
    | none =>
      rw [runTargets_cons_term c i0 t rest st evs its hr] at h ⊢
      have := runTarget_respondOK c i0 t hstr (c.route.retries + 1) st
        rid rn t' resp (by rw [hr]; exact h)
      rw [hr] at this
      simp only at this
      rcases this with ⟨h1, h2, h3, _, h5, n, h6⟩
      subst h3
      exact ⟨h1, h2, h5, n, h6⟩
    | some st' =>
      rw [runTargets_cons_adv c i0 t rest st st' evs its hr] at h ⊢
      rcases List.mem_append.mp h with h | h
      · exfalso
        have := runTarget_respondOK c i0 t hstr (c.route.retries + 1) st
          rid rn t' resp (by rw [hr]; exact h)
        rw [hr] at this
        simp only at this
        exact Option.some_ne_none st' (by rw [← this.2.2.2.1])
      · rcases ih (i0 + 1) st' rid rn t' resp h with ⟨h1, h2, h5, n, h6⟩
        refine ⟨h1, h2, ?_, n, ?_⟩
        · intro row
          rw [lastLogRow_append]
          exact h5 _
        · rw [attemptsOf_append, List.getLast?_append, h6]
          rfl

/-- A clean stream close pins down the pump's journal: no attempt rows, and
the last `Log` wrote the 200 stream record. -/
theorem streamLoop_writeDone (rid tn uc rn : String) (t : Target)
    (ms : List Message) (n : Nat) :
    ∀ (evs : List StreamEv) (fc : String),
      Ev.writeDone ∈ streamLoop rid tn uc rn t ms n fc evs →
      attemptsOf (streamLoop rid tn uc rn t ms n fc evs) = [] ∧
      ∃ fcf, ∀ row, lastLogRow row (streamLoop rid tn uc rn t ms n fc evs) =
        rowOfRecord (mkStreamRecord rid tn uc rn t ms fcf) := by
  intro evs
  induction evs with
  | nil => intro fc h; simp [streamLoop] at h
  | cons e rest ih =>
    intro fc h
    match e with
    | .chunk c =>
      rw [streamLoop] at h ⊢
      simp only [List.mem_cons] at h
      rcases h with h | h
      · simp at h
      · rcases ih _ h with ⟨h1, fcf, h2⟩
        exact ⟨h1, fcf, fun row => h2 row⟩
    | .chunkClosed =>
      rw [streamLoop]
      exact ⟨rfl, fc, fun row => rfl⟩
    | .errVal none =>
      rw [streamLoop] at h ⊢
      exact ih fc h
    | .errVal (some m) =>
      rw [streamLoop] at h
      simp at h
    | .ctxDone =>
      rw [streamLoop] at h
      simp at h

/-- A clean stream close pins down the cascade's journal: no attempt rows,
one stream takeover, and the final record carries the takeover target. -/
theorem runTargets_writeDone (c : Ctx) (hstr : c.req.stream = true) :
    ∀ (ts : List Target) (i0 : Nat) (st : LoopState),
      Ev.writeDone ∈ (runTargets c i0 ts st).1 →
      attemptsOf (runTargets c i0 ts st).1 = [] ∧
      ∃ i2 t2 n2 fcf,
        Ev.streamTakeover i2 t2 n2 ∈ (runTargets c i0 ts st).1 ∧
        ∀ row, lastLogRow row (runTargets c i0 ts st).1 =
          rowOfRecord (mkStreamRecord c.requestID c.tenant c.useCase
            c.route.name t2 c.req.messages fcf) := by
  intro ts
  induction ts with
  | nil =>
    intro i0 st h
    rw [runTargets_nil] at h
    simp at h
  | cons t rest ih =>
    intro i0 st h
    cases hreg : c.env.registry t.provider with
    | false =>
      have hr := runTarget_noreg c i0 t c.route.retries st hreg
      rw [runTargets_cons_adv c i0 t rest st _ _ _ hr] at h ⊢
      simp only [List.cons_append, List.nil_append, List.mem_cons] at h
      rcases h with h | h
      · simp at h
      · rcases ih (i0 + 1) _ h with ⟨h1, i2, t2, n2, fcf, hmem, h2⟩
        refine ⟨h1, i2, t2, n2, fcf, by simp [hmem], fun row => h2 row⟩
    | true =>
      have hr := runTarget_stream c i0 t c.route.retries st hreg hstr
      rw [runTargets_cons_term c i0 t rest st _ _ hr] at h ⊢
      simp only [List.cons_append, List.nil_append, List.mem_cons] at h
      rcases h with h | h | h
      · simp at h
      · simp at h
      · rcases streamLoop_writeDone c.requestID c.tenant c.useCase
          c.route.name t c.req.messages st.attemptNo c.env.streamEvs "" h
          with ⟨h1, fcf, h2⟩
        exact ⟨h1, i0, t, st.attemptNo, fcf, by simp, fun row => h2 row⟩

/-! ## C2: success-row consistency -/

/-- Streaming request used by the C2 counterexample. -/
def reqS : GoChatRequest :=
  { model := "", messages := msgsW, temperature := 0, maxTokens := 0
    stream := true, metaTenant := "acme", metaUseCase := "support" }

/-- Input carrying the streaming request. -/
def inpC2 : Input :=
  { headerRequestId := "r2", genId := "g2", body := some reqS, allowed := true }

/-- Counterexample to claim C2 as stated: a streaming request that
completes successfully (the `data: [DONE]` trailer is emitted and the
`requests` row is finalized with status 200) journals ZERO attempt rows,
so "the attempt row with the maximum attempt_no" does not exist, while the
claim asserts such a row exists with status 200 for streaming successes as
well. -/
theorem C2_counterexample :
    (∃ row, (runDB (handleChat inpC2 envW).trace).requests = [row] ∧
      row.statusCode = 200) ∧
    Ev.writeDone ∈ (handleChat inpC2 envW).trace ∧
    (runDB (handleChat inpC2 envW).trace).attempts = [] := by
  refine ⟨⟨_, rfl, rfl⟩, ?_, rfl⟩
  decide

/-- Conclusion of the amended claim C2. -/
def C2Statement (inp : Input) (env : Env) (req : GoChatRequest) : Prop :=
  let hr := handleChat inp env
  let db := runDB hr.trace
  (req.stream = false →
    ∀ rid rn t resp, Ev.respondOK rid rn t resp ∈ hr.trace →
      ∃ row arow,
        db.requests = [row] ∧ row.provider = t.provider ∧
        row.model = t.model ∧ row.routeName = rn ∧ row.statusCode = 200 ∧
        row.requestId = rid ∧
        db.attempts.getLast? = some arow ∧ arow.provider = t.provider ∧
        arow.model = t.model ∧ arow.statusCode = 200 ∧
        (∀ a ∈ db.attempts.dropLast, a.attemptNo < arow.attemptNo)) ∧
  (req.stream = true → Ev.writeDone ∈ hr.trace →
    db.attempts = [] ∧
    ∃ row i2 t2 n2, db.requests = [row] ∧ row.statusCode = 200 ∧
      Ev.streamTakeover i2 t2 n2 ∈ hr.trace ∧
      row.provider = t2.provider ∧ row.model = t2.model)

/-- Amended claim C2: for every buffered HTTP 200 completion the single
`requests` row carries the `route_name`, `provider`, `model` of the
attempt row with the maximum `attempt_no`, which has `status_code = 200`;
a streaming HTTP 200 completion journals no attempt rows at all, and its
`requests` row carries the provider and model of the stream-takeover
target. -/
theorem C2_success_row (inp : Input) (env : Env) (req : GoChatRequest)
    (hb : inp.body = some req) (ha : inp.allowed = true) :
    C2Statement inp env req := by
  have hshape := handleChat_some inp env req hb ha
  have htrace : (handleChat inp env).trace =
      .logReq (mkSkeleton (resolveRequestId inp) (tenantOf req)
        req.metaUseCase (mkCtx inp env req).route.name) ::
      (runTargets (mkCtx inp env req) 0
        (targetsOf (mkCtx inp env req).route) ⟨1, 0, ""⟩).1 := by
    rw [hshape]
  rcases runDB_handleChat inp env req hb ha with ⟨hreq, hatt⟩
  constructor
  · -- buffered
    intro hs rid rn t resp hmem
    rw [htrace] at hmem
    rcases List.mem_cons.mp hmem with hmem | hmem
    · simp at hmem
    · rcases runTargets_respondOK (mkCtx inp env req) hs
        (targetsOf (mkCtx inp env req).route) 0 ⟨1, 0, ""⟩ rid rn t resp hmem
        with ⟨h1, h2, h5, n, h6⟩
      refine ⟨rowOfRecord (mkFinalRecord (mkCtx inp env req).requestID
          (mkCtx inp env req).tenant (mkCtx inp env req).useCase
          (mkCtx inp env req).route.name t resp),
        attemptRowOf (resolveRequestId inp)
          (mkOkAttempt (mkCtx inp env req).requestID t n),
        ?_, rfl, rfl, ?_, rfl, ?_, ?_, rfl, rfl, rfl, ?_⟩
      · rw [hreq, h5]
      · rw [h2]
        rfl
      · rw [h1]
        rfl
      · rw [hatt, List.getLast?_map, h6]
        rfl
      · -- every earlier attempt row has a smaller attempt number
        intro a hmemA
        rcases runTargets_attemptNos (mkCtx inp env req)
          (targetsOf (mkCtx inp env req).route) 0 ⟨1, 0, ""⟩ with ⟨k, hk⟩
        have hnosmap : attemptNosOf (runTargets (mkCtx inp env req) 0
            (targetsOf (mkCtx inp env req).route) ⟨1, 0, ""⟩).1 =
            (attemptsOf (runTargets (mkCtx inp env req) 0
              (targetsOf (mkCtx inp env req).route) ⟨1, 0, ""⟩).1).map
              (fun a2 => a2.attemptNo) :=
          attemptNosOf_eq_map _
        have hrowsnos : ((runDB (handleChat inp env).trace).attempts).map
            (fun a2 => a2.attemptNo) = List.range' 1 k := by
          rw [hatt, List.map_map]
          rw [← hk, hnosmap]
          rfl
        -- the last attempt number is k, and k is positive
        have hlastno : ((runDB (handleChat inp env).trace).attempts.map
            (fun a2 => a2.attemptNo)).getLast? = some n := by
          rw [List.getLast?_map, hatt, List.getLast?_map, h6]
          rfl
        rw [hrowsnos] at hlastno
        have hkpos : k ≠ 0 := by
          intro hk0
          rw [hk0] at hlastno
          simp at hlastno
        obtain ⟨m, rfl⟩ := Nat.exists_eq_succ_of_ne_zero hkpos
        have hn : n = m + 1 := by
          rw [List.getLast?_range'] at hlastno
          simp at hlastno
          omega
        have hano : a.attemptNo ∈ ((runDB (handleChat inp env).trace).attempts.map
            (fun a2 => a2.attemptNo)).dropLast := by
          rw [← List.map_dropLast]
          exact List.mem_map_of_mem _ hmemA
        rw [hrowsnos, List.range'_1_concat, List.dropLast_concat] at hano
        rw [List.mem_range'_1] at hano
        have : (attemptRowOf (resolveRequestId inp)
            (mkOkAttempt (mkCtx inp env req).requestID t n)).attemptNo = n := rfl
        rw [this]
        omega
  · -- streaming
    intro hs hdone
    rw [htrace] at hdone
    rcases List.mem_cons.mp hdone with hdone | hdone
    · simp at hdone
    · rcases runTargets_writeDone (mkCtx inp env req) hs
        (targetsOf (mkCtx inp env req).route) 0 ⟨1, 0, ""⟩ hdone
        with ⟨h1, i2, t2, n2, fcf, hmem2, h2⟩
      refine ⟨?_, rowOfRecord (mkStreamRecord (mkCtx inp env req).requestID
          (mkCtx inp env req).tenant (mkCtx inp env req).useCase
          (mkCtx inp env req).route.name t2 (mkCtx inp env req).req.messages fcf),
        i2, t2, n2, ?_, rfl, ?_, rfl, rfl⟩
      · rw [hatt, h1]
        rfl
      · rw [hreq, h2]
      · rw [htrace]
        exact List.mem_cons_of_mem _ hmem2

/-- Rate-limited-free environment whose first chat call transport-fails and
whose second succeeds with usage (10, 20, 30). -/
def envOK : Env :=
  { registry := fun p => p == "openai" || p == "anthropic"
    route := fun _ => routeW
    chat := fun n => if n == 0 then .fail true "connection refused"
      else .ok ⟨"id1", "gpt-4o-mini", ⟨10, 20, 30⟩⟩
    streamEvs := [] }

/-- Witness for the amended C2 at a concrete buffered retry-then-success
request. -/
theorem C2_success_row_witness :
    ({ headerRequestId := "r2w", genId := "g2w", body := some reqW,
       allowed := true : Input }.body = some reqW ∧
     ({ headerRequestId := "r2w", genId := "g2w", body := some reqW,
        allowed := true : Input }.allowed = true)) ∧
    C2Statement
      { headerRequestId := "r2w", genId := "g2w", body := some reqW,
        allowed := true } envOK reqW :=
  ⟨⟨rfl, rfl⟩, C2_success_row _ envOK reqW rfl rfl⟩

/-! ## Streaming-path facts (towards C10) -/

/-- The stream pump never performs a buffered `Chat` call. -/
theorem streamLoop_noChat (rid tn uc rn : String) (t : Target)
    (ms : List Message) (n : Nat) :
    ∀ (evs : List StreamEv) (fc : String),
      ∀ e ∈ streamLoop rid tn uc rn t ms n fc evs, isChatCallEv e = false := by
  intro evs
  induction evs with
  | nil => intro fc e h; simp [streamLoop] at h
  | cons ev rest ih =>
    intro fc e h
    match ev with
    | .chunk c =>
      rw [streamLoop] at h
      rcases List.mem_cons.mp h with h | h
      · rw [h]; rfl
      · exact ih _ e h
    | .chunkClosed =>
      rw [streamLoop] at h
      rcases List.mem_cons.mp h with h | h
      · rw [h]; rfl
      · simp at h
        rw [h]; rfl
    | .errVal none =>
      rw [streamLoop] at h
      exact ih fc e h
    | .errVal (some m) =>
      rw [streamLoop] at h
      rcases List.mem_cons.mp h with h | h
      · rw [h]; rfl
      · simp at h
        rw [h]; rfl
    | .ctxDone =>
      rw [streamLoop] at h
      simp at h

/-- The stream pump never emits a takeover event. -/
theorem streamLoop_noTakeover (rid tn uc rn : String) (t : Target)
    (ms : List Message) (n : Nat) :
    ∀ (evs : List StreamEv) (fc : String),
      ∀ i2 t2 n2, Ev.streamTakeover i2 t2 n2 ∉
        streamLoop rid tn uc rn t ms n fc evs := by
  intro evs
  induction evs with
  | nil => intro fc i2 t2 n2 h; simp [streamLoop] at h
  | cons ev rest ih =>
    intro fc i2 t2 n2 h
    match ev with
    | .chunk c =>
      rw [streamLoop] at h
      rcases List.mem_cons.mp h with h | h
      · simp at h
      · exact ih _ i2 t2 n2 h
    | .chunkClosed =>
      rw [streamLoop] at h
      simp at h
    | .errVal none =>
      rw [streamLoop] at h
      exact ih fc i2 t2 n2 h
    | .errVal (some m) =>
      rw [streamLoop] at h
      simp at h
    | .ctxDone =>
      rw [streamLoop] at h
      simp at h

/-- A non-nil error value closes the stream: the pump's trace ends with the
502 attempt row followed by the single SSE error frame. -/
theorem streamLoop_wse (rid tn uc rn : String) (t : Target)
    (ms : List Message) (n : Nat) :
    ∀ (evs : List StreamEv) (fc : String) (msg : String),
      Ev.writeStreamError msg ∈ streamLoop rid tn uc rn t ms n fc evs →
      ∃ pre a, streamLoop rid tn uc rn t ms n fc evs =
        pre ++ [.logAttempt rid a, .writeStreamError msg] ∧
        a.statusCode = 502 ∧ a.errorMessage = msg := by
  intro evs
  induction evs with
  | nil => intro fc msg h; simp [streamLoop] at h
  | cons ev rest ih =>
    intro fc msg h
    match ev with
    | .chunk c =>
      rw [streamLoop] at h ⊢
      rcases List.mem_cons.mp h with h | h
      · simp at h
      · rcases ih _ msg h with ⟨pre, a, heq, ha1, ha2⟩
        exact ⟨.writeChunk c :: pre, a, by rw [heq]; rfl, ha1, ha2⟩
    | .chunkClosed =>
      rw [streamLoop] at h
      simp at h
    | .errVal none =>
      rw [streamLoop] at h ⊢
      exact ih fc msg h
    | .errVal (some m) =>
      rw [streamLoop] at h ⊢
      rcases List.mem_cons.mp h with h | h
      · simp at h
      · simp only [List.mem_singleton] at h
        rw [Ev.writeStreamError.injEq] at h
        subst h
        exact ⟨[], _, rfl, rfl, rfl⟩
    | .ctxDone =>
      rw [streamLoop] at h
      simp at h

/-- For a streaming request the cascade performs no buffered `Chat` call. -/
theorem runTargets_stream_noChat (c : Ctx) (hstr : c.req.stream = true) :
    ∀ (ts : List Target) (i0 : Nat) (st : LoopState),
      ∀ e ∈ (runTargets c i0 ts st).1, isChatCallEv e = false := by
  intro ts
  induction ts with
  | nil =>
    intro i0 st e h
    rw [runTargets_nil] at h
    simp at h
    rw [h]; rfl
  | cons t rest ih =>
    intro i0 st e h
    cases hreg : c.env.registry t.provider with
    | false =>
      have hr := runTarget_noreg c i0 t c.route.retries st hreg
      rw [runTargets_cons_adv c i0 t rest st _ _ _ hr] at h
      rcases List.mem_append.mp h with h | h
      · simp at h
        rw [h]; rfl
      · exact ih (i0 + 1) _ e h
    | true =>
      have hr := runTarget_stream c i0 t c.route.retries st hreg hstr
      rw [runTargets_cons_term c i0 t rest st _ _ hr] at h
      simp only [List.cons_append, List.nil_append, List.mem_cons] at h
      rcases h with h | h | h
      · rw [h]; rfl
      · rw [h]; rfl
      · exact streamLoop_noChat c.requestID c.tenant c.useCase c.route.name t
          c.req.messages st.attemptNo c.env.streamEvs "" e h

/-- For a streaming request every iteration is either the stream takeover
or an unknown-provider failure. -/
theorem runTargets_stream_iters (c : Ctx) (hstr : c.req.stream = true) :
    ∀ (ts : List Target) (i0 : Nat) (st : LoopState),
      ∀ it ∈ (runTargets c i0 ts st).2,
        it.res = .streamed ∨ ∃ p, it.res = .getFail p := by
  intro ts
  induction ts with
  | nil =>
    intro i0 st it h
    rw [runTargets_nil] at h
    simp at h
  | cons t rest ih =>
    intro i0 st it h
    cases hreg : c.env.registry t.provider with
    | false =>
      have hr := runTarget_noreg c i0 t c.route.retries st hreg
      rw [runTargets_cons_adv c i0 t rest st _ _ _ hr] at h
      rcases List.mem_append.mp h with h | h
      · simp at h
        rw [h]
        exact Or.inr ⟨t.provider, rfl⟩
      · exact ih (i0 + 1) _ it h
    | true =>
      have hr := runTarget_stream c i0 t c.route.retries st hreg hstr
      rw [runTargets_cons_term c i0 t rest st _ _ hr] at h
      simp at h
      rw [h]
      exact Or.inl rfl

/-- For a streaming request the takeover happens with attempt counter 1, on
the first target whose provider resolves; every earlier target's provider
is unknown. -/
theorem runTargets_stream_takeover (c : Ctx) (hstr : c.req.stream = true) :
    ∀ (ts : List Target) (i0 : Nat) (st : LoopState),
      st.attemptNo = 1 →
      ∀ i2 t2 n2, Ev.streamTakeover i2 t2 n2 ∈ (runTargets c i0 ts st).1 →
        n2 = 1 ∧ i0 ≤ i2 ∧ ts.get? (i2 - i0) = some t2 ∧
        c.env.registry t2.provider = true ∧
        (∀ j, i0 ≤ j → j < i2 →
          ∃ tj, ts.get? (j - i0) = some tj ∧
            c.env.registry tj.provider = false) := by
  intro ts
  induction ts with
  | nil =>
    intro i0 st _ i2 t2 n2 h
    rw [runTargets_nil] at h
    simp at h
  | cons t rest ih =>
    intro i0 st hatt i2 t2 n2 h
    cases hreg : c.env.registry t.provider with
    | false =>
      have hr := runTarget_noreg c i0 t c.route.retries st hreg
      rw [runTargets_cons_adv c i0 t rest st _ _ _ hr] at h
      rcases List.mem_append.mp h with h | h
      · simp at h
      · rcases ih (i0 + 1) { st with lastErr := provNotFound t.provider }
          hatt i2 t2 n2 h with ⟨h1, h2, h3, h4, h5⟩
        refine ⟨h1, by omega, ?_, h4, ?_⟩
        · have : i2 - i0 = (i2 - (i0 + 1)) + 1 := by omega
          rw [this]
          simpa using h3
        · intro j hj1 hj2
          by_cases hj0 : j = i0
          · refine ⟨t, ?_, hreg⟩
            rw [hj0]
            simp
          · rcases h5 j (by omega) hj2 with ⟨tj, htj1, htj2⟩
            refine ⟨tj, ?_, htj2⟩
            have : j - i0 = (j - (i0 + 1)) + 1 := by omega
            rw [this]
            simpa using htj1
    | true =>
      have hr := runTarget_stream c i0 t c.route.retries st hreg hstr
      rw [runTargets_cons_term c i0 t rest st _ _ hr] at h
      simp only [List.cons_append, List.nil_append, List.mem_cons] at h
      rcases h with h | h | h
      · simp at h
      · rw [Ev.streamTakeover.injEq] at h
        obtain ⟨h1, h2, h3⟩ := h
        refine ⟨by rw [h3, hatt], by omega, ?_, by rw [h2]; exact hreg, ?_⟩
        · have : i2 - i0 = 0 := by omega
          rw [this, h2]
          simp
        · intro j hj1 hj2
          omega
      · exact absurd h (streamLoop_noTakeover c.requestID c.tenant c.useCase
          c.route.name t c.req.messages st.attemptNo c.env.streamEvs ""
          i2 t2 n2)

/-- A non-nil error value closes the whole cascade's trace with the 502
attempt row and the single SSE error frame. -/
theorem runTargets_wse (c : Ctx) (hstr : c.req.stream = true) :
    ∀ (ts : List Target) (i0 : Nat) (st : LoopState) (msg : String),
      Ev.writeStreamError msg ∈ (runTargets c i0 ts st).1 →
      ∃ pre a, (runTargets c i0 ts st).1 =
        pre ++ [.logAttempt c.requestID a, .writeStreamError msg] ∧
        a.statusCode = 502 ∧ a.errorMessage = msg := by
  intro ts
  induction ts with
  | nil =>
    intro i0 st msg h
    rw [runTargets_nil] at h
    simp at h
  | cons t rest ih =>
    intro i0 st msg h
    cases hreg : c.env.registry t.provider with
    | false =>
      have hr := runTarget_noreg c i0 t c.route.retries st hreg
      rw [runTargets_cons_adv c i0 t rest st _ _ _ hr] at h ⊢
      rcases List.mem_append.mp h with h | h
      · simp at h
      · rcases ih (i0 + 1) _ msg h with ⟨pre, a, heq, ha1, ha2⟩
        refine ⟨.beginAttempt i0 t st.attemptNo :: pre, a, ?_, ha1, ha2⟩
        rw [heq]
        rfl
    | true =>
      have hr := runTarget_stream c i0 t c.route.retries st hreg hstr
      rw [runTargets_cons_term c i0 t rest st _ _ hr] at h ⊢
      simp only [List.cons_append, List.nil_append, List.mem_cons] at h
      rcases h with h | h | h
      · simp at h
      · simp at h
      · rcases streamLoop_wse c.requestID c.tenant c.useCase c.route.name t
          c.req.messages st.attemptNo c.env.streamEvs "" msg h
          with ⟨pre, a, heq, ha1, ha2⟩
        refine ⟨.beginAttempt i0 t st.attemptNo ::
          .streamTakeover i0 t st.attemptNo :: pre, a, ?_, ha1, ha2⟩
        rw [heq]
        rfl

/-! ## C10: streaming dispatch -/

/-- Environment for the C10 counterexample: the primary's provider is not
registered, the fallback's is. -/
def envC10 : Env :=
  { registry := fun p => p == "real"
    route := fun _ =>
      { name := "rt", primary := ⟨"ghost", "m1"⟩,
        fallbacks := [⟨"real", "m2"⟩], timeoutMS := 0, retries := 0 }
    chat := fun _ => .fail false "unused"
    streamEvs := [.chunkClosed] }

/-- Streaming input for the C10 counterexample. -/
def inpC10 : Input :=
  { headerRequestId := "r10", genId := "g10", body := some reqS,
    allowed := true }

/-- Counterexample to claim C10 as stated: when the first target's provider
is unknown, a streaming request is NOT handed over on the first attempt of
the first target — the fallback target is consulted and the stream is
taken over on the fallback (target index 1), so "fallback targets are never
exercised for a streaming request" fails. -/
theorem C10_counterexample :
    Ev.streamTakeover 1 ⟨"real", "m2"⟩ 1 ∈ (handleChat inpC10 envC10).trace ∧
    (handleChat inpC10 envC10).iters =
      [⟨0, .getFail "ghost"⟩, ⟨1, .streamed⟩] := by
  exact ⟨by decide, rfl⟩

/-- Conclusion of the amended claim C10 for a streaming, admitted request. -/
def C10Statement (inp : Input) (env : Env) (req : GoChatRequest) : Prop :=
  let hr := handleChat inp env
  let targets := targetsOf (env.route req.metaUseCase)
  (∀ e ∈ hr.trace, isChatCallEv e = false) ∧
  (∀ it ∈ hr.iters, it.res = .streamed ∨ ∃ p, it.res = .getFail p) ∧
  (∀ i2 t2 n2, Ev.streamTakeover i2 t2 n2 ∈ hr.trace →
    n2 = 1 ∧ targets.get? i2 = some t2 ∧ env.registry t2.provider = true ∧
    (∀ j < i2, ∃ tj, targets.get? j = some tj ∧
      env.registry tj.provider = false)) ∧
  (∀ msg, Ev.writeStreamError msg ∈ hr.trace →
    ∃ pre a, hr.trace = pre ++ [.logAttempt (resolveRequestId inp) a,
      .writeStreamError msg] ∧ a.statusCode = 502 ∧ a.errorMessage = msg)

/-- Amended claim C10: a streaming request that reaches the attempt loop
never performs a buffered `Chat` call (the retry budget is never
exercised); the stream is handed over with attempt counter 1 on the FIRST
target whose provider resolves in the registry — earlier targets are
consulted only through unknown-provider failures; and a NON-NIL value on
the error channel journals one 502 attempt row and emits a single SSE
error frame as the final event (a nil value, as delivered by the closed
error channel, is ignored). -/
theorem C10_streaming (inp : Input) (env : Env) (req : GoChatRequest)
    (hb : inp.body = some req) (hs : req.stream = true)
    (ha : inp.allowed = true) : C10Statement inp env req := by
  have hshape := handleChat_some inp env req hb ha
  have htrace : (handleChat inp env).trace =
      .logReq (mkSkeleton (resolveRequestId inp) (tenantOf req)
        req.metaUseCase (mkCtx inp env req).route.name) ::
      (runTargets (mkCtx inp env req) 0
        (targetsOf (mkCtx inp env req).route) ⟨1, 0, ""⟩).1 := by
    rw [hshape]
  have hiters : (handleChat inp env).iters =
      (runTargets (mkCtx inp env req) 0
        (targetsOf (mkCtx inp env req).route) ⟨1, 0, ""⟩).2 := by
    rw [hshape]
  refine ⟨?_, ?_, ?_, ?_⟩
  · intro e h
    rw [htrace] at h
    rcases List.mem_cons.mp h with h | h
    · rw [h]; rfl
    · exact runTargets_stream_noChat (mkCtx inp env req) hs
        (targetsOf (mkCtx inp env req).route) 0 ⟨1, 0, ""⟩ e h
  · intro it h
    rw [hiters] at h
    exact runTargets_stream_iters (mkCtx inp env req) hs
      (targetsOf (mkCtx inp env req).route) 0 ⟨1, 0, ""⟩ it h
  · intro i2 t2 n2 h
    rw [htrace] at h
    rcases List.mem_cons.mp h with h | h
    · simp at h
    · rcases runTargets_stream_takeover (mkCtx inp env req) hs
        (targetsOf (mkCtx inp env req).route) 0 ⟨1, 0, ""⟩ rfl i2 t2 n2 h
        with ⟨h1, _, h3, h4, h5⟩
      refine ⟨h1, by simpa using h3, h4, ?_⟩
      intro j hj
      rcases h5 j (by omega) hj with ⟨tj, htj1, htj2⟩
      exact ⟨tj, by simpa using htj1, htj2⟩
  · intro msg h
    rw [htrace] at h
    rcases List.mem_cons.mp h with h | h
    · simp at h
    · rcases runTargets_wse (mkCtx inp env req) hs
        (targetsOf (mkCtx inp env req).route) 0 ⟨1, 0, ""⟩ msg h
        with ⟨pre, a, heq, ha1, ha2⟩
      refine ⟨.logReq (mkSkeleton (resolveRequestId inp) (tenantOf req)
        req.metaUseCase (mkCtx inp env req).route.name) :: pre, a, ?_, ha1, ha2⟩
      rw [htrace, heq]
      rfl

/-- Witness for the amended C10 at a concrete streaming request whose
primary provider is unknown. -/
theorem C10_streaming_witness :
    (inpC10.body = some reqS ∧ reqS.stream = true ∧ inpC10.allowed = true) ∧
    C10Statement inpC10 envC10 reqS :=
  ⟨⟨rfl, rfl, rfl⟩, C10_streaming inpC10 envC10 reqS rfl rfl rfl⟩

/-! ## C8: journal-before-respond ordering -/

/-- Whether an event is the start of a loop iteration (the attempt span). -/
def isBeginEv : Ev → Bool
  | .beginAttempt _ _ _ => true
  | _ => false

/-- Adjacency relation holding between every two consecutive trace events:
a `Chat` call is immediately journaled, and the buffered 200 response or
the `[DONE]` trailer is immediately preceded by a 200 `Log`. -/
def c8Step (e e2 : Ev) : Prop :=
  (isChatCallEv e = true → isLogAttemptEv e2 = true) ∧
  ((isRespondOKEv e2 = true ∨ isWriteDoneEv e2 = true) → isFinal200Ev e = true)

/-- `c8Step` holds whenever the left event is no `Chat` call and the right
event is neither the 200 response nor the `[DONE]` trailer. -/
theorem c8Step_easy (e e2 : Ev) (h1 : isChatCallEv e = false)
    (h2 : isRespondOKEv e2 = false) (h3 : isWriteDoneEv e2 = false) :
    c8Step e e2 := by
  constructor
  · intro h
    rw [h1] at h
    exact absurd h (by simp)
  · intro h
    rcases h with h | h
    · rw [h2] at h
      exact absurd h (by simp)
    · rw [h3] at h
      exact absurd h (by simp)

/-- `c8Step` between a `Chat` call and its journal write. -/
theorem c8Step_chatlog (i ci : Nat) (t : Target) (n : Nat) (rid : String)
    (a : Attempt) : c8Step (.chatCall i ci t n) (.logAttempt rid a) := by
  constructor
  · intro _
    rfl
  · intro h
    rcases h with h | h <;> simp [isRespondOKEv, isWriteDoneEv] at h

/-- `c8Step` out of a 200 `Log` holds towards any successor. -/
theorem c8Step_final (rec : Record) (hrec : rec.statusCode = 200) (e2 : Ev) :
    c8Step (.logReq rec) e2 := by
  constructor
  · intro h
    simp [isChatCallEv] at h
  · intro _
    simp [isFinal200Ev, hrec]

/-- Destructor for `isFinal200Ev`. -/
theorem isFinal200_dest (e : Ev) (h : isFinal200Ev e = true) :
    ∃ rec, e = .logReq rec ∧ rec.statusCode = 200 := by
  match e with
  | .logReq r =>
    refine ⟨r, rfl, ?_⟩
    simpa [isFinal200Ev] using h
  | .logAttempt rid a => simp [isFinal200Ev] at h
  | .beginAttempt i t n => simp [isFinal200Ev] at h
  | .chatCall i ci t n => simp [isFinal200Ev] at h
  | .respondErr s m r => simp [isFinal200Ev] at h
  | .respondOK r rn t resp => simp [isFinal200Ev] at h
  | .streamTakeover i t n => simp [isFinal200Ev] at h
  | .writeChunk c => simp [isFinal200Ev] at h
  | .writeStreamError m => simp [isFinal200Ev] at h
  | .writeDone => simp [isFinal200Ev] at h

/-- The stream pump's trace satisfies the adjacency relation, and it never
starts with a response-completing event. -/
theorem streamLoop_c8 (rid tn uc rn : String) (t : Target)
    (ms : List Message) (n : Nat) :
    ∀ (evs : List StreamEv) (fc : String),
      List.Chain' c8Step (streamLoop rid tn uc rn t ms n fc evs) ∧
      (∀ e, (streamLoop rid tn uc rn t ms n fc evs).head? = some e →
        isRespondOKEv e = false ∧ isWriteDoneEv e = false) := by
  intro evs
  induction evs with
  | nil => intro fc; exact ⟨List.chain'_nil, fun e h => by simp [streamLoop] at h⟩
  | cons ev rest ih =>
    intro fc
    match ev with
    | .chunk c =>
      rw [streamLoop]
      refine ⟨List.chain'_cons'.mpr ⟨?_, (ih _).1⟩, ?_⟩
      · intro y hy
        rcases (ih _).2 y hy with ⟨hy1, hy2⟩
        exact c8Step_easy _ _ rfl hy1 hy2
      · intro e h
        simp only [List.head?_cons, Option.some_inj] at h
        rw [← h]
        exact ⟨rfl, rfl⟩
    | .chunkClosed =>
      rw [streamLoop]
      refine ⟨List.chain'_cons.mpr ⟨?_, List.chain'_singleton _⟩, ?_⟩
      · exact c8Step_final _ rfl _
      · intro e h
        simp only [List.head?_cons, Option.some_inj] at h
        rw [← h]
        exact ⟨rfl, rfl⟩
    | .errVal none =>
      rw [streamLoop]
      exact ih fc
    | .errVal (some m) =>
      rw [streamLoop]
      refine ⟨List.chain'_cons.mpr ⟨?_, List.chain'_singleton _⟩, ?_⟩
      · exact c8Step_easy _ _ rfl rfl rfl
      · intro e h
        simp only [List.head?_cons, Option.some_inj] at h
        rw [← h]
        exact ⟨rfl, rfl⟩
    | .ctxDone =>
      rw [streamLoop]
      exact ⟨List.chain'_nil, fun e h => by simp at h⟩

/-- Whether an event is the error-response write. -/
def isRespondErrEv : Ev → Bool
  | .respondErr _ _ _ => true
  | _ => false

/-- An attempt-begin event is no response-completing or `Chat` event. -/
theorem isBegin_dest (e : Ev) (h : isBeginEv e = true) :
    isRespondOKEv e = false ∧ isWriteDoneEv e = false ∧
    isChatCallEv e = false := by
  match e with
  | .beginAttempt i t n => exact ⟨rfl, rfl, rfl⟩
  | .logReq r => simp [isBeginEv] at h
  | .logAttempt rid a => simp [isBeginEv] at h
  | .chatCall i ci t n => simp [isBeginEv] at h
  | .respondErr s m r => simp [isBeginEv] at h
  | .respondOK r rn t resp => simp [isBeginEv] at h
  | .streamTakeover i t n => simp [isBeginEv] at h
  | .writeChunk c => simp [isBeginEv] at h
  | .writeStreamError m => simp [isBeginEv] at h
  | .writeDone => simp [isBeginEv] at h

/-- An error-response event is no response-completing or `Chat` event. -/
theorem isRespondErr_dest (e : Ev) (h : isRespondErrEv e = true) :
    isRespondOKEv e = false ∧ isWriteDoneEv e = false ∧
    isChatCallEv e = false := by
  match e with
  | .respondErr s m r => exact ⟨rfl, rfl, rfl⟩
  | .logReq r => simp [isRespondErrEv] at h
  | .logAttempt rid a => simp [isRespondErrEv] at h
  | .beginAttempt i t n => simp [isRespondErrEv] at h
  | .chatCall i ci t n => simp [isRespondErrEv] at h
  | .respondOK r rn t resp => simp [isRespondErrEv] at h
  | .streamTakeover i t n => simp [isRespondErrEv] at h
  | .writeChunk c => simp [isRespondErrEv] at h
  | .writeStreamError m => simp [isRespondErrEv] at h
  | .writeDone => simp [isRespondErrEv] at h

/-- The inner loop's trace satisfies the adjacency relation, starts with an
attempt-begin event, and never ends with a `Chat` call. -/
theorem runTarget_c8 (c : Ctx) (i : Nat) (t : Target) :
    ∀ (b : Nat) (st : LoopState),
      List.Chain' c8Step (runTarget c i t b st).1 ∧
      (∀ e, (runTarget c i t b st).1.head? = some e → isBeginEv e = true) ∧
      (∀ e, (runTarget c i t b st).1.getLast? = some e →
        isChatCallEv e = false) := by
  intro b
  induction b with
  | zero =>
    intro st
    rw [runTarget_zero]
    exact ⟨List.chain'_nil, fun e h => by simp at h, fun e h => by simp at h⟩
  | succ b ih =>
    intro st
    cases hreg : c.env.registry t.provider with
    | false =>
      rw [runTarget_noreg c i t b st hreg]
      refine ⟨List.chain'_singleton _, ?_, ?_⟩
      · intro e h
        simp only [List.head?_cons, Option.some_inj] at h
        rw [← h]
        rfl
      · intro e h
        simp only [List.getLast?_singleton, Option.some_inj] at h
        rw [← h]
        rfl
    | true =>
      cases hstr : c.req.stream with
      | true =>
        rw [runTarget_stream c i t b st hreg hstr]
        rcases streamLoop_c8 c.requestID c.tenant c.useCase c.route.name t
          c.req.messages st.attemptNo c.env.streamEvs "" with ⟨hch, hhd⟩
        refine ⟨?_, ?_, ?_⟩
        · refine List.chain'_append.mpr ⟨?_, hch, ?_⟩
          · exact List.chain'_cons.mpr ⟨c8Step_easy _ _ rfl rfl rfl,
              List.chain'_singleton _⟩
          · intro x hx y hy
            simp only [List.getLast?_cons_cons, List.getLast?_singleton,
              Option.mem_def, Option.some_inj] at hx
            rcases hhd y hy with ⟨hy1, hy2⟩
            rw [← hx]
            exact c8Step_easy _ _ rfl hy1 hy2
        · intro e h
          simp only [List.cons_append, List.head?_cons, Option.some_inj] at h
          rw [← h]
          rfl
        · intro e h
          rw [List.getLast?_append] at h
          rcases h2 : (streamLoop c.requestID c.tenant c.useCase c.route.name t
              c.req.messages st.attemptNo "" c.env.streamEvs).getLast?
            with _ | y
          · rw [h2] at h
            simp only [Option.none_or] at h
            simp only [List.getLast?_cons_cons, List.getLast?_singleton,
              Option.some_inj] at h
            rw [← h]
            rfl
          · rw [h2] at h
            simp only [Option.or_some, Option.some_inj] at h
            rw [← h]
            exact streamLoop_noChat c.requestID c.tenant c.useCase c.route.name
              t c.req.messages st.attemptNo c.env.streamEvs "" y
              (List.mem_of_getLast?_eq_some h2)
      | false =>
        rcases hc : c.env.chat st.callIdx with resp | ⟨retryable, msg⟩
        · rw [runTarget_ok c i t b st resp hreg hstr hc]
          refine ⟨?_, ?_, ?_⟩
          · refine List.chain'_cons.mpr ⟨c8Step_easy _ _ rfl rfl rfl,
              List.chain'_cons.mpr ⟨c8Step_chatlog _ _ _ _ _ _,
              List.chain'_cons.mpr ⟨c8Step_easy _ _ rfl rfl rfl,
              List.chain'_cons.mpr ⟨c8Step_final _ rfl _,
              List.chain'_singleton _⟩⟩⟩⟩
          · intro e h
            simp only [List.head?_cons, Option.some_inj] at h
            rw [← h]
            rfl
          · intro e h
            simp only [List.getLast?_cons_cons, List.getLast?_singleton,
              Option.some_inj] at h
            rw [← h]
            rfl
        · by_cases hgo : retryable = true ∧ b ≠ 0
          · rw [runTarget_fail_go c i t b st retryable msg hreg hstr hc hgo]
            rcases ih ⟨st.attemptNo + 1, st.callIdx + 1, msg⟩
              with ⟨hch2, hhd2, hlast2⟩
            refine ⟨?_, ?_, ?_⟩
            · refine List.chain'_append.mpr ⟨?_, hch2, ?_⟩
              · exact List.chain'_cons.mpr ⟨c8Step_easy _ _ rfl rfl rfl,
                  List.chain'_cons.mpr ⟨c8Step_chatlog _ _ _ _ _ _,
                  List.chain'_singleton _⟩⟩
              · intro x hx y hy
                simp only [List.getLast?_cons_cons, List.getLast?_singleton,
                  Option.mem_def, Option.some_inj] at hx
                rcases isBegin_dest y (hhd2 y hy) with ⟨hy1, hy2, _⟩
                rw [← hx]
                exact c8Step_easy _ _ rfl hy1 hy2
            · intro e h
              simp only [List.cons_append, List.head?_cons,
                Option.some_inj] at h
              rw [← h]
              rfl
            · intro e h
              rw [List.getLast?_append] at h
              rcases h2 : (runTarget c i t b
                  ⟨st.attemptNo + 1, st.callIdx + 1, msg⟩).1.getLast?
                with _ | y
              · rw [h2] at h
                simp only [Option.none_or] at h
                simp only [List.getLast?_cons_cons, List.getLast?_singleton,
                  Option.some_inj] at h
                rw [← h]
                rfl
              · rw [h2] at h
                simp only [Option.or_some, Option.some_inj] at h
                rw [← h]
                exact hlast2 y h2
          · rw [runTarget_fail_stop c i t b st retryable msg hreg hstr hc hgo]
            refine ⟨?_, ?_, ?_⟩
            · exact List.chain'_cons.mpr ⟨c8Step_easy _ _ rfl rfl rfl,
                List.chain'_cons.mpr ⟨c8Step_chatlog _ _ _ _ _ _,
                List.chain'_singleton _⟩⟩
            · intro e h
              simp only [List.head?_cons, Option.some_inj] at h
              rw [← h]
              rfl
            · intro e h
              simp only [List.getLast?_cons_cons, List.getLast?_singleton,
                Option.some_inj] at h
              rw [← h]
              rfl

/-- The cascade's trace satisfies the adjacency relation, starts with an
attempt-begin or error-response event, and never ends with a `Chat` call. -/
theorem runTargets_c8 (c : Ctx) :
    ∀ (ts : List Target) (i0 : Nat) (st : LoopState),
      List.Chain' c8Step (runTargets c i0 ts st).1 ∧
      (∀ e, (runTargets c i0 ts st).1.head? = some e →
        isBeginEv e = true ∨ isRespondErrEv e = true) ∧
      (∀ e, (runTargets c i0 ts st).1.getLast? = some e →
        isChatCallEv e = false) := by
  intro ts
  induction ts with
  | nil =>
    intro i0 st
    rw [runTargets_nil]
    refine ⟨List.chain'_singleton _, ?_, ?_⟩
    · intro e h
      simp only [List.head?_cons, Option.some_inj] at h
      rw [← h]
      exact Or.inr rfl
    · intro e h
      simp only [List.getLast?_singleton, Option.some_inj] at h
      rw [← h]
      rfl
  | cons t rest ih =>
    intro i0 st
    rcases hr : runTarget c i0 t (c.route.retries + 1) st with ⟨evs, its, res⟩
    have hrt := runTarget_c8 c i0 t (c.route.retries + 1) st
    rw [hr] at hrt
    simp only at hrt
    rcases hrt with ⟨hch1, hhd1, hlast1⟩
    match res with
    | none =>
      rw [runTargets_cons_term c i0 t rest st evs its hr]
      exact ⟨hch1, fun e h => Or.inl (hhd1 e h), hlast1⟩
    | some st' =>
      rw [runTargets_cons_adv c i0 t rest st st' evs its hr]
      rcases ih (i0 + 1) st' with ⟨hch2, hhd2, hlast2⟩
      refine ⟨?_, ?_, ?_⟩
      · refine List.chain'_append.mpr ⟨hch1, hch2, ?_⟩
        intro x hx y hy
        have hxlast : evs.getLast? = some x := hx
        have hxnc := hlast1 x hxlast
        rcases hhd2 y hy with hy2 | hy2
        · rcases isBegin_dest y hy2 with ⟨hy3, hy4, _⟩
          exact c8Step_easy _ _ hxnc hy3 hy4
        · rcases isRespondErr_dest y hy2 with ⟨hy3, hy4, _⟩
          exact c8Step_easy _ _ hxnc hy3 hy4
      · intro e h
        rw [List.head?_append] at h
        rcases h2 : evs.head? with _ | y
        · rw [h2] at h
          simp only [Option.none_or] at h
          exact hhd2 e h
        · rw [h2] at h
          simp only [Option.or_some, Option.some_inj] at h
          rw [← h]
          exact Or.inl (hhd1 y h2)
      · intro e h
        rw [List.getLast?_append] at h
        rcases h2 : (runTargets c (i0 + 1) rest st').1.getLast? with _ | y
        · rw [h2] at h
          simp only [Option.none_or] at h
          exact hlast1 e h
        · rw [h2] at h
          simp only [Option.or_some, Option.some_inj] at h
          rw [← h]
          exact hlast2 y h2

/-- Conclusion of claim C8: the skeleton `Log` is the trace's first event;
every `Chat` call is immediately followed by its attempt journal write (so
the write happens before the next attempt begins); and the buffered 200
response write and the streaming `[DONE]` trailer are each immediately
preceded by a 200 `Log`. -/
def C8Statement (inp : Input) (env : Env) (req : GoChatRequest) : Prop :=
  let hr := handleChat inp env
  (∃ rec rest, hr.trace = .logReq rec :: rest ∧ rec.statusCode = 0) ∧
  (∀ n e, hr.trace.get? n = some e → isChatCallEv e = true →
    ∃ e2, hr.trace.get? (n + 1) = some e2 ∧ isLogAttemptEv e2 = true) ∧
  (∀ n e, hr.trace.get? n = some e → isRespondOKEv e = true →
    ∃ rec, 1 ≤ n ∧ hr.trace.get? (n - 1) = some (.logReq rec) ∧
      rec.statusCode = 200) ∧
  (∀ n e, hr.trace.get? n = some e → isWriteDoneEv e = true →
    ∃ rec, 1 ≤ n ∧ hr.trace.get? (n - 1) = some (.logReq rec) ∧
      rec.statusCode = 200)

/-- Claim C8: within one admitted request the journal writes are ordered —
the skeleton `Log` happens before the first `LogAttempt`, each attempt's
journal write happens before the next attempt begins, and the final 200
`Log` happens before the response is delivered (the buffered body write,
or the `data: [DONE]` trailer on streams). -/
theorem C8_ordering (inp : Input) (env : Env) (req : GoChatRequest)
    (hb : inp.body = some req) (ha : inp.allowed = true) :
    C8Statement inp env req := by
  have hshape := handleChat_some inp env req hb ha
  have htrace : (handleChat inp env).trace =
      .logReq (mkSkeleton (resolveRequestId inp) (tenantOf req)
        req.metaUseCase (mkCtx inp env req).route.name) ::
      (runTargets (mkCtx inp env req) 0
        (targetsOf (mkCtx inp env req).route) ⟨1, 0, ""⟩).1 := by
    rw [hshape]
  rcases runTargets_c8 (mkCtx inp env req)
    (targetsOf (mkCtx inp env req).route) 0 ⟨1, 0, ""⟩ with ⟨hch, hhd, hlastC⟩
  have hchain : List.Chain' c8Step (handleChat inp env).trace := by
    rw [htrace]
    refine List.chain'_cons'.mpr ⟨?_, hch⟩
    intro y hy
    rcases hhd y hy with hy2 | hy2
    · rcases isBegin_dest y hy2 with ⟨hy3, hy4, _⟩
      exact c8Step_easy _ _ rfl hy3 hy4
    · rcases isRespondErr_dest y hy2 with ⟨hy3, hy4, _⟩
      exact c8Step_easy _ _ rfl hy3 hy4
  have hlastT : ∀ e, (handleChat inp env).trace.getLast? = some e →
      isChatCallEv e = false := by
    intro e h
    rw [htrace] at h
    match hR1 : (runTargets (mkCtx inp env req) 0
        (targetsOf (mkCtx inp env req).route) ⟨1, 0, ""⟩).1 with
    | [] =>
      rw [hR1] at h
      simp only [List.getLast?_singleton, Option.some_inj] at h
      rw [← h]
      rfl
    | z :: zs =>
      rw [hR1] at h
      rw [getLast?_cons_ne _ _ (by simp)] at h
      refine hlastC e ?_
      rw [hR1]
      exact h
  refine ⟨⟨mkSkeleton (resolveRequestId inp) (tenantOf req)
      req.metaUseCase (mkCtx inp env req).route.name, _, htrace, rfl⟩,
    ?_, ?_, ?_⟩
  · -- chat call immediately journaled
    intro n e hget hchat
    rcases List.get?_eq_some.mp hget with ⟨hn, hgetv⟩
    by_cases hn1 : n + 1 < (handleChat inp env).trace.length
    · have hR := List.chain'_iff_get.mp hchain n (by omega)
      have he : (handleChat inp env).trace.get ⟨n, hn⟩ = e := hgetv
      rw [he] at hR
      refine ⟨(handleChat inp env).trace.get ⟨n + 1, hn1⟩,
        List.get?_eq_get hn1, hR.1 hchat⟩
    · exfalso
      have hlen : n = (handleChat inp env).trace.length - 1 := by omega
      have hlast : (handleChat inp env).trace.getLast? = some e := by
        rw [List.getLast?_eq_getElem?, ← hlen, ← List.get?_eq_getElem?]
        exact hget
      rw [hlastT e hlast] at hchat
      exact absurd hchat (by simp)
  · -- buffered 200 response preceded by the final Log
    intro n e hget hro
    rcases List.get?_eq_some.mp hget with ⟨hn, hgetv⟩
    match n with
    | 0 =>
      exfalso
      rw [htrace] at hget
      simp only [List.get?_cons_zero, Option.some_inj] at hget
      rw [← hget] at hro
      simp [isRespondOKEv] at hro
    | m + 1 =>
      have hR := List.chain'_iff_get.mp hchain m (by omega)
      have he : (handleChat inp env).trace.get ⟨m + 1, hn⟩ = e := hgetv
      rw [he] at hR
      have hfin := hR.2 (Or.inl hro)
      rcases isFinal200_dest _ hfin with ⟨rec, hrec1, hrec2⟩
      refine ⟨rec, by omega, ?_, hrec2⟩
      have : (handleChat inp env).trace.get? m =
          some ((handleChat inp env).trace.get ⟨m, by omega⟩) :=
        List.get?_eq_get (by omega)
      rw [Nat.add_sub_cancel, this, hrec1]
  · -- streaming DONE trailer preceded by the final Log
    intro n e hget hwd
    rcases List.get?_eq_some.mp hget with ⟨hn, hgetv⟩
    match n with
    | 0 =>
      exfalso
      rw [htrace] at hget
      simp only [List.get?_cons_zero, Option.some_inj] at hget
      rw [← hget] at hwd
      simp [isWriteDoneEv] at hwd
    | m + 1 =>
      have hR := List.chain'_iff_get.mp hchain m (by omega)
      have he : (handleChat inp env).trace.get ⟨m + 1, hn⟩ = e := hgetv
      rw [he] at hR
      have hfin := hR.2 (Or.inr hwd)
      rcases isFinal200_dest _ hfin with ⟨rec, hrec1, hrec2⟩
      refine ⟨rec, by omega, ?_, hrec2⟩
      have : (handleChat inp env).trace.get? m =
          some ((handleChat inp env).trace.get ⟨m, by omega⟩) :=
        List.get?_eq_get (by omega)
      rw [Nat.add_sub_cancel, this, hrec1]

/-- Witness for C8 at a concrete buffered retry-then-success request. -/
theorem C8_ordering_witness :
    ({ headerRequestId := "r8", genId := "g8", body := some reqW,
       allowed := true : Input }.body = some reqW ∧
     ({ headerRequestId := "r8", genId := "g8", body := some reqW,
        allowed := true : Input }.allowed = true)) ∧
    C8Statement
      { headerRequestId := "r8", genId := "g8", body := some reqW,
        allowed := true } envOK reqW :=
  ⟨⟨rfl, rfl⟩, C8_ordering _ envOK reqW rfl rfl⟩

end AIGW
